import Mathlib

/-!
Verification development for the `cackle` per-dependency capability checker.

Shallow embedding of the core data model and operations:
`src/checker.rs` (permission matcher), `src/problem.rs` (problem model and
grouping), `src/crate_index.rs` (package identifiers and display),
`src/link_info.rs` (linker-invocation parsing), and
`src/ui/full_term.rs` / `src/ui/full_term/problems_ui.rs` (interactive loop).

Conventions of the embedding:
* Rust `usize`/`u32` indices and counters become `Nat`.
* `HashSet<PermId>` becomes `Finset Nat` (a `HashSet` is semantically a set);
  where Rust iterates a `HashSet` (whose order is unspecified), the embedding
  iterates the ascending enumeration `ascList`.
* `HashMap<K, V>` becomes an association list `List (K × V)`: `get` is the
  first match, `entry(k).or_default()` appends a fresh key at the end.
  A `BTreeMap` becomes an association list kept sorted by key.
* Fallible functions return `Except`/`Option`; a Rust panic is `Option.none`.
-/

namespace Cackle

/-- A permission id: index into `Checker.permission_names` (`PermId(usize)`
in `src/checker.rs`). -/
abbrev PermId := Nat

/-- `SourceLocation` from `src/checker.rs` (paths are modelled as strings). -/
structure SourceLocation where
  filename : String
  line_number : Nat
  deriving DecidableEq, Repr

/-- `Usage` from `src/checker.rs`. -/
inductive Usage where
  | source (location : SourceLocation)
  | unknown (object_path : String)
  deriving DecidableEq, Repr

/-- `CrateInfo` from `src/checker.rs`. `disallowed_usage` is the
`HashMap<PermId, Vec<Usage>>`, modelled as an association list. -/
structure CrateInfo where
  name : Option String := none
  has_config : Bool := false
  used : Bool := false
  allowed_perms : Finset Nat := ∅
  unused_allowed_perms : Finset Nat := ∅
  disallowed_usage : List (Nat × List Usage) := []
  deriving DecidableEq

/-- The `Checker` state from `src/checker.rs`. The source's
`permission_name_to_id : HashMap<PermissionName, PermId>` always maps a name
to its index in `permission_names`, so it is represented by that list alone. -/
structure Checker where
  permission_names : List String := []
  inclusions : List (String × List Nat) := []
  exclusions : List (String × List Nat) := []
  crate_infos : List CrateInfo := []
  crate_name_to_index : List (String × Nat) := []
  deriving DecidableEq

/-- First-match lookup in an association list (`HashMap::get`). -/
def assocGet {α : Type} (m : List (String × α)) (k : String) : Option α :=
  (m.find? (fun e => e.1 = k)).map (fun e => e.2)

/-- `HashMap::entry(k).or_default().push(v)`: append `v` to the list at key
`k`, materialising the key at the end when absent. -/
def entryPush {α : Type} (m : List (String × List α)) (k : String) (v : α) :
    List (String × List α) :=
  match m with
  | [] => [(k, [v])]
  | e :: rest =>
    if e.1 = k then (e.1, e.2 ++ [v]) :: rest else e :: entryPush rest k v

/-- In-place update of one list element (`&mut v[i]`); out-of-range indices
leave the list unchanged. -/
def listModify {α : Type} : List α → Nat → (α → α) → List α
  | [], _, _ => []
  | x :: xs, 0, f => f x :: xs
  | x :: xs, n + 1, f => x :: listModify xs n f

/-- The ascending enumeration of a finite set of naturals: the embedding's
canonical iteration order for a `HashSet` (whose iteration order Rust leaves
unspecified). -/
def ascList (s : Finset Nat) : List Nat :=
  (List.range (s.sup id + 1)).filter (fun x => x ∈ s)

instance {ε α : Type} [DecidableEq ε] [DecidableEq α] :
    DecidableEq (Except ε α) := fun x y =>
  match x, y with
  | Except.ok a, Except.ok b => decidable_of_iff (a = b) (by simp)
  | Except.error a, Except.error b => decidable_of_iff (a = b) (by simp)
  | Except.ok _, Except.error _ => isFalse (by simp)
  | Except.error _, Except.ok _ => isFalse (by simp)

/-- `Checker::perm_id`: the id for a permission name, allocating a fresh id
(and appending to the append-only name table) on first observation. -/
def Checker.perm_id (c : Checker) (permission : String) : Nat × Checker :=
  match c.permission_names.indexOf? permission with
  | some i => (i, c)
  | none =>
    (c.permission_names.length,
     { c with permission_names := c.permission_names ++ [permission] })

/-- `Checker::crate_id_from_name`. -/
def Checker.crate_id_from_name (c : Checker) (crate_name : String) :
    Nat × Checker :=
  match assocGet c.crate_name_to_index crate_name with
  | some id => (id, c)
  | none =>
    let crate_id := c.crate_infos.length
    (crate_id,
     { c with
       crate_name_to_index := c.crate_name_to_index ++ [(crate_name, crate_id)]
       crate_infos := c.crate_infos ++ [{ name := some crate_name }] })

/-- Apply `f` to the crate info at `crate_id` (`&mut self.crate_infos[i]`). -/
def Checker.setCrate (c : Checker) (crate_id : Nat) (f : CrateInfo → CrateInfo) :
    Checker :=
  { c with crate_infos := listModify c.crate_infos crate_id f }

/-- A `[perm.<name>]` entry of the config: `include`/`exclude` prefix lists
(field names shortened because `include` is a Lean keyword). -/
structure ApiConfig where
  incl : List String := []
  excl : List String := []

/-- A `[pkg.<name>]` entry of the config: the `allow` list. -/
structure CrateConfig where
  allow : List String := []

/-- The parts of `Config` consumed by `Checker::from_config` (the TOML maps
are modelled as association lists in iteration order). -/
structure Config where
  perms : List (String × ApiConfig) := []
  crates : List (String × CrateConfig) := []

/-- One iteration of the `for (perm_name, api) in &config.perms` loop of
`Checker::from_config`. -/
def Checker.addPerm (c : Checker) (entry : String × ApiConfig) : Checker :=
  let (id, c) := c.perm_id entry.1
  let c := entry.2.incl.foldl
    (fun c pre => { c with inclusions := entryPush c.inclusions pre id }) c
  entry.2.excl.foldl
    (fun c pre => { c with exclusions := entryPush c.exclusions pre id }) c

/-- One iteration of the `for (crate_name, crate_config) in &config.crates`
loop of `Checker::from_config`. -/
def Checker.addCrate (c : Checker) (entry : String × CrateConfig) : Checker :=
  let (crate_id, c) := c.crate_id_from_name entry.1
  let c := c.setCrate crate_id (fun info => { info with has_config := true })
  entry.2.allow.foldl
    (fun c perm =>
      let (perm_id, c) := c.perm_id perm
      c.setCrate crate_id (fun info =>
        { info with
          allowed_perms := insert perm_id info.allowed_perms
          unused_allowed_perms := insert perm_id info.unused_allowed_perms })) c

/-- `Checker::from_config`: allocate `UNKNOWN_CRATE_ID` as crate 0, then load
the permission prefix rules and the per-crate allowlists. -/
def Checker.from_config (config : Config) : Checker :=
  let c : Checker := { crate_infos := [{}] }
  let c := config.perms.foldl Checker.addPerm c
  config.crates.foldl Checker.addCrate c

/-- The loop body of `Checker::apis_for_path`: extend the incrementally built
prefix by one part (inserting `::` only when the accumulated name is
non-empty), then insert every inclusion and remove every exclusion listed at
that prefix. -/
def apStep (c : Checker) (st : String × Finset Nat) (name_part : String) :
    String × Finset Nat :=
  let name := if st.1 = "" then st.1 ++ name_part else st.1 ++ "::" ++ name_part
  let matched := ((assocGet c.inclusions name).getD []).foldl
    (fun s p => insert p s) st.2
  let matched := ((assocGet c.exclusions name).getD []).foldl
    (fun s p => s.erase p) matched
  (name, matched)

/-- `Checker::apis_for_path`. -/
def Checker.apis_for_path (c : Checker) (name_parts : List String) :
    Finset Nat :=
  (name_parts.foldl (apStep c) ("", ∅)).2

/-! Specification-side formulation of `apis_for_path`, following the spec's
words: walk the successive prefixes `parts[0..k]` joined with `::` in
increasing `k`; at each prefix first union in the inclusions, then subtract
the exclusions. -/

/-- Joining a list of parts with `::` (the spec's `parts[0..k].join("::")`). -/
def joinPath : List String → String
  | [] => ""
  | [p] => p
  | p :: rest => p ++ "::" ++ joinPath rest

/-- The permissions listed under a prefix in `inclusions`, as a set. -/
def inclSet (c : Checker) (name : String) : Finset Nat :=
  ((assocGet c.inclusions name).getD []).toFinset

/-- The permissions listed under a prefix in `exclusions`, as a set. -/
def exclSet (c : Checker) (name : String) : Finset Nat :=
  ((assocGet c.exclusions name).getD []).toFinset

/-- One prefix step of the spec's walk: union the inclusions at the prefix,
then subtract the exclusions at the prefix. -/
def specStep (c : Checker) (s : Finset Nat) (name : String) : Finset Nat :=
  (s ∪ inclSet c name) \ exclSet c name

/-- The successive prefixes `parts[0..k].join("::")` for `k = 1..n`. -/
def takeJoins (parts : List String) : List String :=
  (List.range parts.length).map (fun k => joinPath (parts.take (k + 1)))

/-- `apisForPath` as described by the spec sentence: fold the per-prefix
union-then-subtract step over the successive `::`-joined prefixes. -/
def apisForPathSpec (c : Checker) (parts : List String) : Finset Nat :=
  (takeJoins parts).foldl (specStep c) ∅

/-- The configuration of the `test_apis_for_path` unit test in
`src/checker.rs`: `perm.fs` includes `std::env` and excludes
`std::env::var`; `perm.env` and `perm.env2` both include `std::env`. -/
def testConfig : Config :=
  { perms :=
      [("fs", { incl := ["std::env"], excl := ["std::env::var"] }),
       ("env", { incl := ["std::env"] }),
       ("env2", { incl := ["std::env"] })] }

/-- The checker produced from `testConfig`; permission ids are allocated in
order of first observation: `fs ↦ 0`, `env ↦ 1`, `env2 ↦ 2`. -/
def testChecker : Checker := Checker.from_config testConfig

/-- `Checker::report_crate_used`. -/
def Checker.report_crate_used (c : Checker) (crate_id : Nat) : Checker :=
  c.setCrate crate_id (fun info => { info with used := true })

/-- The per-crate-info effect of `Checker::permission_id_used`: remove the
permission from `unused_allowed_perms`; when it is not allowed, append one
usage to `disallowed_usage[perm_id]`. -/
def permUsedInfo (perm_id : Nat) (usage : Usage) (info : CrateInfo) :
    CrateInfo :=
  let info := { info with
    unused_allowed_perms := info.unused_allowed_perms.erase perm_id }
  if perm_id ∈ info.allowed_perms then info
  else { info with
    disallowed_usage :=
      entryPushUsage info.disallowed_usage perm_id usage }
where
  /-- `disallowed_usage.entry(perm_id).or_default().push(usage)` on the
  `HashMap<PermId, Vec<Usage>>`, as an association list. -/
  entryPushUsage (m : List (Nat × List Usage)) (k : Nat) (v : Usage) :
      List (Nat × List Usage) :=
    match m with
    | [] => [(k, [v])]
    | e :: rest =>
      if e.1 = k then (e.1, e.2 ++ [v]) :: rest
      else e :: entryPushUsage rest k v

/-- `Checker::permission_id_used`. The `compute_usage_fn` thunk is modelled
as the usage value it produces. -/
def Checker.permission_id_used (c : Checker) (crate_id : Nat) (perm_id : Nat)
    (usage : Usage) : Checker :=
  c.setCrate crate_id (permUsedInfo perm_id usage)

/-- `Checker::path_used`: record one usage for every permission matched by
`apis_for_path`. The source iterates the returned `HashSet` (whose order is
unspecified); the embedding iterates its ascending enumeration. -/
def Checker.path_used (c : Checker) (crate_id : Nat) (name_parts : List String)
    (usage : Usage) : Checker :=
  (ascList (c.apis_for_path name_parts)).foldl
    (fun c perm_id => c.permission_id_used crate_id perm_id usage) c

/-- `disallowed_usage.get(&perm_id)` on the usage map. -/
def permLookup (m : List (Nat × List Usage)) (k : Nat) : Option (List Usage) :=
  (m.find? (fun e => e.1 = k)).map (fun e => e.2)

/-- The crate info at an index (`self.crate_infos[crate_id.0]`; a default
for out-of-range indices, which the source never produces). -/
def crateAt (c : Checker) (crate_id : Nat) : CrateInfo :=
  c.crate_infos.getD crate_id {}

/-- The invariant of claim C4: every crate's never-used allowed permissions
are among its allowed permissions. -/
def checkerInv (c : Checker) : Prop :=
  ∀ info ∈ c.crate_infos, info.unused_allowed_perms ⊆ info.allowed_perms

/-- The test configuration extended with a crate `crab1` allowed to use
`env` (permission id 1). -/
def pathWitnessChecker : Checker :=
  Checker.from_config
    { perms := testConfig.perms, crates := [("crab1", { allow := ["env"] })] }

/-- `UnusedConfig` from `src/checker.rs` (`unused_allow_apis` is a map keyed
by crate name, modelled as an association list in insertion order). -/
structure UnusedConfig where
  unknown_crates : List String := []
  unused_allow_apis : List (String × List String) := []
  deriving DecidableEq

/-- The loop body of `Checker::check_unused` for one crate info: skip
nameless crates; collect crates with config never seen in the tree, and the
names of allowed-but-never-used permissions. -/
def checkUnusedStep (c : Checker) (uc : UnusedConfig) (info : CrateInfo) :
    UnusedConfig :=
  match info.name with
  | none => uc
  | some crate_name =>
    let uc :=
      if ¬info.used ∧ info.has_config then
        { uc with unknown_crates := uc.unknown_crates ++ [crate_name] }
      else uc
    if info.unused_allowed_perms ≠ ∅ then
      { uc with
        unused_allow_apis := uc.unused_allow_apis ++
          [(crate_name,
            ((ascList info.unused_allowed_perms).map
              (fun perm_id => c.permission_names.getD perm_id "")))] }
    else uc

/-- `Checker::check_unused`. -/
def Checker.check_unused (c : Checker) : Except UnusedConfig Unit :=
  let unused_config := c.crate_infos.foldl (checkUnusedStep c) {}
  if unused_config = ({} : UnusedConfig) then Except.ok ()
  else Except.error unused_config

/-- The contribution of one crate info to `unknown_crates`: its name when it
has config but was never seen used (and a name at all). -/
def ucStep1 (info : CrateInfo) : Option String :=
  match info.name with
  | some crate_name =>
    if ¬info.used ∧ info.has_config then some crate_name else none
  | none => none

/-- The contribution of one crate info to `unused_allow_apis`: its name with
the names of its never-used allowed permissions, when there are any. -/
def ucStep2 (c : Checker) (info : CrateInfo) : Option (String × List String) :=
  match info.name with
  | some crate_name =>
    if info.unused_allowed_perms ≠ ∅ then
      some (crate_name,
        (ascList info.unused_allowed_perms).map
          (fun perm_id => c.permission_names.getD perm_id ""))
    else none
  | none => none

/-- The names of every crate with config never seen in the build. -/
def unknownCratesSpec (c : Checker) : List String :=
  c.crate_infos.filterMap ucStep1

/-- Per-crate names of allowed permissions never observed used. -/
def unusedAllowApisSpec (c : Checker) : List (String × List String) :=
  c.crate_infos.filterMap (ucStep2 c)

/-- The `UnusedConfig` described by the claim: the two computed lists. -/
def unusedSpec (c : Checker) : UnusedConfig :=
  { unknown_crates := unknownCratesSpec c
    unused_allow_apis := unusedAllowApisSpec c }

/-- A checker whose config names a crate `foo` allowing `fs`, with no crate
ever reported used: both `check_unused` conditions fire. -/
def unusedWitnessChecker : Checker :=
  Checker.from_config { crates := [("foo", { allow := ["fs"] })] }

/-- `CanContinueResponse`. Modelled from the spec: the `proxy::rpc` module is
not among the provided sources; the spec gives
`CanContinueResponse = Proceed | Deny | GiveUp`. -/
inductive CanContinueResponse where
  | proceed
  | deny
  | giveUp
  deriving DecidableEq

/-- One printed line for a usage in `Checker::report_problems`
(`to_relative_path`, which consults the current directory, is modelled as the
identity on the stored path). -/
def usageLine (u : Usage) : String :=
  match u with
  | Usage.source location =>
    "    " ++ location.filename ++ ":" ++ toString (location.line_number + 1)
  | Usage.unknown object_path =>
    "    Unknown source location in `" ++ object_path ++ "`"

/-- The header line `report_problems` prints for a crate with disallowed
usages. -/
def crateHeader (info : CrateInfo) : String :=
  match info.name with
  | some crate_name => "Crate '" ++ crate_name ++ "' uses disallowed APIs:"
  | none =>
    "APIs were used by code where we couldn't identify the crate responsible:"

/-- The inner loop body of `Checker::report_problems`: print the permission
header, then the usages truncated at the cap (`usages.iter().take(cap)`,
where a negative `--usage-report-cap` means every usage). -/
def permFoldStep (c : Checker) (usage_report_cap : Int) (lines : List String)
    (e : Nat × List Usage) : List String :=
  let cap := if usage_report_cap < 0 then e.2.length else usage_report_cap.toNat
  (lines ++ ["  " ++ c.permission_names.getD e.1 "" ++ ":"]) ++
    (e.2.take cap).map usageLine

/-- The outer loop body of `Checker::report_problems`: skip crates without
disallowed usages; otherwise mark failure, print the crate header and every
permission block. -/
def reportStep (c : Checker) (usage_report_cap : Int)
    (st : List String × Bool) (info : CrateInfo) : List String × Bool :=
  if info.disallowed_usage.isEmpty then st
  else
    let lines := st.1 ++ [crateHeader info]
    (info.disallowed_usage.foldl (permFoldStep c usage_report_cap) lines, true)

/-- `Checker::report_problems`, with standard output modelled as the list of
printed lines. `usage_report_cap` is the `--usage-report-cap` argument
(modelled from the spec: the `Args` struct is not among the provided
sources). -/
def Checker.report_problems (c : Checker) (usage_report_cap : Int) :
    List String × CanContinueResponse :=
  let st := c.crate_infos.foldl (reportStep c usage_report_cap) ([], false)
  (st.1, if st.2 then CanContinueResponse.deny else CanContinueResponse.proceed)

/-- The usage lines printed for one `disallowed_usage` entry (the inner loop
of `report_problems` after the permission header). -/
def permUsageLines (usage_report_cap : Int) (usages : List Usage) :
    List String :=
  let cap := if usage_report_cap < 0 then usages.length
    else usage_report_cap.toNat
  (usages.take cap).map usageLine

/-- The block of lines `report_problems` prints for one crate info. -/
def crateBlock (c : Checker) (usage_report_cap : Int) (info : CrateInfo) :
    List String :=
  if info.disallowed_usage.isEmpty then []
  else
    crateHeader info ::
      info.disallowed_usage.flatMap
        (fun e => ("  " ++ c.permission_names.getD e.1 "" ++ ":") ::
          permUsageLines usage_report_cap e.2)

/-- Concrete usages for the usage-cap witness. -/
def wUsages : List Usage :=
  [Usage.source { filename := "lib.rs", line_number := 11 },
   Usage.source { filename := "lib.rs", line_number := 12 },
   Usage.unknown "obj.o"]

/-- A crate info with three recorded disallowed usages of permission 0. -/
def wInfo : CrateInfo :=
  { name := some "foo", disallowed_usage := [(0, wUsages)] }

/-- A checker with one crate having recorded disallowed usages. -/
def reportWitnessChecker : Checker :=
  { permission_names := ["fs"], crate_infos := [wInfo] }

/-- A checker whose only rule is an inclusion at the bare prefix `x`: it
separates the incremental prefix building of the source from the
`join("::")` description of the spec on a parts list with a leading `""`. -/
def cexChecker : Checker := { inclusions := [("x", [0])] }

/-! The problem model of `src/problem.rs` with the package identifiers of
`src/crate_index.rs`. -/

/-- `PackageId` from `src/crate_index.rs`. The semver `version` (an external
type) is modelled by its display string. -/
structure PackageId where
  name : String
  version : String
  name_is_unique : Bool
  deriving DecidableEq

/-- `BuildScriptId` from `src/crate_index.rs`. -/
structure BuildScriptId where
  pkg_id : PackageId
  deriving DecidableEq

/-- `CrateSel` from `src/crate_index.rs`. -/
inductive CrateSel where
  | primary (pkg_id : PackageId)
  | buildScript (build_script_id : BuildScriptId)
  deriving DecidableEq

/-- `CrateSel::pkg_id`. -/
def CrateSel.pkg_id : CrateSel → PackageId
  | CrateSel.primary p => p
  | CrateSel.buildScript b => b.pkg_id

/-- `impl Display for CrateSel`: the package name, a `.build` marker for
build scripts, and the version in square brackets exactly when the name is
not unique. -/
def displayCrateSel (sel : CrateSel) : String :=
  let pkg_id := sel.pkg_id
  pkg_id.name ++
    (match sel with
     | CrateSel.buildScript _ => ".build"
     | _ => "") ++
    (if ¬pkg_id.name_is_unique then "[" ++ pkg_id.version ++ "]" else "")

/-- `impl Display for PackageId`, which delegates to
`CrateSel::Primary(self)`. -/
def displayPackageId (pkg_id : PackageId) : String :=
  displayCrateSel (CrateSel.primary pkg_id)

/-- `impl Display for BuildScriptId`, which delegates to
`CrateSel::BuildScript(self)`. -/
def displayBuildScriptId (b : BuildScriptId) : String :=
  displayCrateSel (CrateSel.buildScript b)

/-- `ApiUsage`. Modelled from the spec and the `src/problem.rs` test helpers:
`checker::ApiUsage` is not among the provided sources. One observed
reference: source location, referencing and referenced symbols, and optional
debug data. -/
structure ApiUsage where
  source_location : SourceLocation
  frm : String
  toSym : String
  debug_data : Option String := none
  deriving DecidableEq

/-- `ApiUsages` from `src/problem.rs`: `usages` is the
`BTreeMap<PermissionName, Vec<ApiUsage>>`, modelled as an association list
kept sorted by key. -/
structure ApiUsages where
  crate_sel : CrateSel
  usages : List (String × List ApiUsage)
  deriving DecidableEq

/-- `UnusedAllowApi` from `src/problem.rs`. -/
structure UnusedAllowApi where
  crate_name : String
  permissions : List String
  deriving DecidableEq

/-- `DisallowedBuildInstruction` from `src/problem.rs`. -/
structure DisallowedBuildInstruction where
  build_script_id : BuildScriptId
  instruction : String
  deriving DecidableEq

/-- `BuildScriptOutput`. Modelled from the spec: the `proxy::rpc` module is
not among the provided sources; it carries the build script identity and the
captured stdout/stderr. -/
structure BuildScriptOutput where
  build_script_id : BuildScriptId
  stdout : String
  stderr : String
  deriving DecidableEq

/-- `BuildScriptFailed` from `src/problem.rs`. -/
structure BuildScriptFailed where
  build_script_id : BuildScriptId
  output : BuildScriptOutput
  deriving DecidableEq

/-- `PermConfig`. Modelled from the spec: `config::PermConfig` is not among
the provided sources; a permission definition is its include/exclude prefix
lists. -/
structure PermConfig where
  incl : List String := []
  excl : List String := []
  deriving DecidableEq

/-- `AvailableApi` from `src/problem.rs`. -/
structure AvailableApi where
  pkg_id : PackageId
  api : String
  config : PermConfig
  deriving DecidableEq

/-- `PossibleExportedApi` from `src/problem.rs` (the `Symbol` is modelled by
its string form). -/
structure PossibleExportedApi where
  pkg_id : PackageId
  api : String
  symbol : String
  deriving DecidableEq

/-- `UnsafeUsage`. Modelled from the spec: the `proxy::rpc` module is not
among the provided sources; the spec's IPC request carries
`{ crate_sel, locations }`. -/
structure UnsafeUsage where
  crate_sel : CrateSel
  locations : List SourceLocation
  deriving DecidableEq

/-- `Problem` from `src/problem.rs` (paths modelled as strings). -/
inductive Problem where
  | message (text : String)
  | missingConfiguration (path : String)
  | usesBuildScript (build_script_id : BuildScriptId)
  | disallowedUnsafe (usage : UnsafeUsage)
  | isProcMacro (pkg_id : PackageId)
  | disallowedApiUsage (usages : ApiUsages)
  | buildScriptFailed (failure : BuildScriptFailed)
  | disallowedBuildInstruction (info : DisallowedBuildInstruction)
  | unusedPackageConfig (crate_name : String)
  | unusedAllowApi (info : UnusedAllowApi)
  | selectSandbox
  | importStdApi (api : String)
  | availableApi (info : AvailableApi)
  | possibleExportedApi (info : PossibleExportedApi)
  deriving DecidableEq

/-- `Severity` from `src/problem.rs`. -/
inductive Severity where
  | warning
  | error
  deriving DecidableEq

/-- `Problem::severity`: `UnusedAllowApi`, `UnusedPackageConfig`,
`PossibleExportedApi` and `AvailableApi` are warnings; every other variant is
an error. -/
def Problem.severity : Problem → Severity
  | Problem.unusedAllowApi _ => Severity.warning
  | Problem.unusedPackageConfig _ => Severity.warning
  | Problem.possibleExportedApi _ => Severity.warning
  | Problem.availableApi _ => Severity.warning
  | _ => Severity.error

/-- `impl Display for ApiUsages` (non-alternate form): with exactly one
permission, ``  `crate` uses API `perm` ``; otherwise the crate followed by
the comma-separated permission list. -/
def displayApiUsages (a : ApiUsages) : String :=
  match a.usages with
  | [(perm, _)] =>
    "`" ++ displayCrateSel a.crate_sel ++ "` uses API `" ++ perm ++ "`"
  | us =>
    "'" ++ displayCrateSel a.crate_sel ++ "' uses disallowed APIs: " ++
      String.intercalate ", " (us.map (fun e => e.1))

/-- `impl Display for Problem` (non-alternate form). -/
def displayProblem : Problem → String
  | Problem.message text => text
  | Problem.disallowedUnsafe usage =>
    "`" ++ displayCrateSel usage.crate_sel ++ "` uses unsafe"
  | Problem.usesBuildScript build_script_id =>
    "`" ++ displayCrateSel (CrateSel.primary build_script_id.pkg_id) ++
      "` has a build script"
  | Problem.isProcMacro pkg_id =>
    "`" ++ displayCrateSel (CrateSel.primary pkg_id) ++ "` is a proc macro"
  | Problem.disallowedApiUsage info => displayApiUsages info
  | Problem.buildScriptFailed info =>
    "Build script for package `" ++
      displayPackageId info.output.build_script_id.pkg_id ++ "` failed"
  | Problem.disallowedBuildInstruction info =>
    displayCrateSel (CrateSel.primary info.build_script_id.pkg_id) ++
      "'s build script emitted disallowed instruction `" ++
      info.instruction ++ "`"
  | Problem.unusedPackageConfig crate_name =>
    "Config supplied for package `" ++ crate_name ++
      "` not in dependency tree"
  | Problem.unusedAllowApi info =>
    "`pkg." ++ info.crate_name ++ "` allows APIs that aren't used"
  | Problem.missingConfiguration path =>
    "Config file `" ++ path ++ "` not found"
  | Problem.selectSandbox => "Select sandbox kind"
  | Problem.importStdApi api => "Optionally import std API `" ++ api ++ "`"
  | Problem.availableApi info =>
    "Package `" ++ displayCrateSel (CrateSel.primary info.pkg_id) ++
      "` exports API `" ++ info.api ++ "`"
  | Problem.possibleExportedApi info =>
    "Package `" ++ displayPackageId info.pkg_id ++ "` may provide API `" ++
      info.api ++ "`"

/-! Grouping of `ProblemList`s (`ProblemList::grouped_by` and
`grouped_by_type_and_crate` from `src/problem.rs`). The `ProblemList`
wrapper around `Vec<Problem>` is modelled as `List Problem`. -/

/-- `ProblemList`. -/
abbrev ProblemList := List Problem

/-- `BTreeMap::entry(k).or_default().append(v)` on a key-sorted association
list: append `v` to the list at `k`, inserting `k` at its sorted position
when absent. -/
def btreeAppend (m : List (String × List ApiUsage)) (k : String)
    (v : List ApiUsage) : List (String × List ApiUsage) :=
  match m with
  | [] => [(k, v)]
  | e :: rest =>
    if e.1 = k then (e.1, e.2 ++ v) :: rest
    else if k < e.1 then (k, v) :: e :: rest
    else e :: btreeAppend rest k v

/-- The merge step of `ProblemList::grouped_by`: fold the incoming usage map
into the existing entry's map, concatenating usage lists per permission. -/
def mergeUsages (existing incoming : List (String × List ApiUsage)) :
    List (String × List ApiUsage) :=
  incoming.foldl (fun m e => btreeAppend m e.1 e.2) existing

/-- Merge the usages of `u` into an existing `DisallowedApiUsage` problem.
The source `panic!`s on any other variant; under the grouping invariant
(indices recorded in the key map always point at `DisallowedApiUsage`
entries) that branch is unreachable, and it is modelled as the identity. -/
def mergeProblemInto (u : ApiUsages) : Problem → Problem
  | Problem.disallowedApiUsage existing =>
    Problem.disallowedApiUsage
      { existing with usages := mergeUsages existing.usages u.usages }
  | other => other

/-- The grouping key of a problem: `some` of `group_fn` on
`DisallowedApiUsage` payloads, `none` otherwise. -/
def dauKey (group_fn : ApiUsages → String) : Problem → Option String
  | Problem.disallowedApiUsage u => some (group_fn u)
  | _ => none

/-- The index of the first problem whose grouping key is `k`. -/
def findDAUIdx (group_fn : ApiUsages → String) (k : String) :
    List Problem → Option Nat
  | [] => none
  | p :: rest =>
    if dauKey group_fn p == some k then some 0
    else (findDAUIdx group_fn k rest).map (fun i => i + 1)

/-- The loop of `ProblemList::grouped_by` over the input problems, carrying
the accumulated `merged` list. The source's `HashMap` from group key to
index always maps a key to the unique `DisallowedApiUsage` entry of `merged`
with that key, so it is represented by a first-index search (the key
functions used are invariant under merging). -/
def groupedByAux (group_fn : ApiUsages → String) :
    List Problem → List Problem → List Problem
  | [], merged => merged
  | p :: rest, merged =>
    match p with
    | Problem.disallowedApiUsage u =>
      match findDAUIdx group_fn (group_fn u) merged with
      | some i =>
        groupedByAux group_fn rest (listModify merged i (mergeProblemInto u))
      | none =>
        groupedByAux group_fn rest (merged ++ [Problem.disallowedApiUsage u])
    | other => groupedByAux group_fn rest (merged ++ [other])

/-- `ProblemList::grouped_by`. -/
def grouped_by (group_fn : ApiUsages → String) (l : ProblemList) :
    ProblemList :=
  groupedByAux group_fn l []

/-- The grouping key of `grouped_by_type_and_crate`: the rendered crate
selector (`usage.crate_sel.to_string()`). -/
def crateKey (u : ApiUsages) : String := displayCrateSel u.crate_sel

/-- `ProblemList::grouped_by_type_and_crate`: group by the rendered crate
selector. -/
def grouped_by_type_and_crate (l : ProblemList) : ProblemList :=
  grouped_by crateKey l

/-! Specification-side formulation of grouping, following the spec's words:
walk the list once, merge the `DisallowedApiUsage` entries sharing a
grouping key into the first occurrence (concatenating their usage lists per
permission), and keep every other problem in relative order. -/

/-- Absorb a list of same-key `ApiUsages` payloads into one payload,
concatenating usage lists per permission. -/
def absorb (u : ApiUsages) (vs : List ApiUsages) : ApiUsages :=
  vs.foldl (fun acc v => { acc with usages := mergeUsages acc.usages v.usages }) u

/-- The `DisallowedApiUsage` payloads in `l` whose group key is `k`. -/
def sameKeyDAUs (group_fn : ApiUsages → String) (k : String)
    (l : List Problem) : List ApiUsages :=
  l.filterMap (fun p =>
    match p with
    | Problem.disallowedApiUsage v =>
      if group_fn v == k then some v else none
    | _ => none)

/-- Grouping as described by the spec: each first-occurrence
`DisallowedApiUsage` absorbs every later entry with the same key and the
later entries disappear; other problems stay in place. -/
def specGrouped (group_fn : ApiUsages → String) : List Problem → List Problem
  | [] => []
  | Problem.disallowedApiUsage u :: rest =>
    Problem.disallowedApiUsage
        (absorb u (sameKeyDAUs group_fn (group_fn u) rest)) ::
      specGrouped group_fn
        (rest.filter (fun p => !(dauKey group_fn p == some (group_fn u))))
  | p :: rest => p :: specGrouped group_fn rest
termination_by l => l.length
decreasing_by
  all_goals simp only [List.length_cons]
  · exact Nat.lt_succ_of_le (List.length_filter_le _ _)
  · exact Nat.lt_succ_self _

/-- The grouping keys of the `DisallowedApiUsage` problems of a list, in
order. -/
def dauKeys (group_fn : ApiUsages → String) (l : List Problem) : List String :=
  l.filterMap (dauKey group_fn)

/-- Whether a problem's grouping key (if any) does not occur among the
`DisallowedApiUsage` entries of `acc`. -/
def keyNotIn (group_fn : ApiUsages → String) (acc : List Problem)
    (p : Problem) : Bool :=
  match dauKey group_fn p with
  | some k => decide (k ∉ dauKeys group_fn acc)
  | none => true

/-- Absorb into a single accumulated entry the same-key payloads occurring
in `l` (non-`DisallowedApiUsage` entries are untouched). -/
def absorbEntry (group_fn : ApiUsages → String) (l : List Problem) :
    Problem → Problem
  | Problem.disallowedApiUsage e =>
    Problem.disallowedApiUsage (absorb e (sameKeyDAUs group_fn (group_fn e) l))
  | other => other

/-- Absorb into every `DisallowedApiUsage` entry of `acc` the same-key
payloads occurring in `l`. -/
def absorbAll (group_fn : ApiUsages → String) (acc l : List Problem) :
    List Problem :=
  acc.map (absorbEntry group_fn l)

/-! `src/link_info.rs`: reconstructing a `LinkInfo` from a linker command
line. Paths and the process argument list are modelled as strings; the
`crate_sel` read from the environment is a parameter. -/

/-- Split a character list at every occurrence of `sep` (the semantics of
`String::split` on one separator character, written structurally so that it
evaluates by kernel reduction). -/
def splitChars (sep : Char) : List Char → List (List Char)
  | [] => [[]]
  | c :: rest =>
    match splitChars sep rest with
    | [] => [[]]
    | cur :: done =>
      if c = sep then [] :: cur :: done else (c :: cur) :: done

/-- `Path::file_name`, modelled on strings (as character lists): the last
non-empty `/`-separated component, unless it is `.` or `..`. -/
def fileName (path : String) : Option (List Char) :=
  match ((splitChars '/' path.toList).filter (fun c => c ≠ [])).getLast? with
  | some c => if c = ['.'] ∨ c = ['.', '.'] then none else some c
  | none => none

/-- `Path::extension`, modelled on strings: the part of the file name after
its last `.`, provided that `.` is not the whole leading stem (a file name
beginning with `.` and containing no other `.` has no extension). -/
def extension (path : String) : Option (List Char) :=
  match fileName path with
  | none => none
  | some f =>
    let parts := splitChars '.' f
    match parts with
    | [] => none
    | [_] => none
    | first :: _ =>
      if first = [] ∧ parts.length = 2 then none
      else parts.getLast?

/-- `has_supported_extension` from `src/link_info.rs`: the extension is
`rlib` or `o`. -/
def has_supported_extension (path : String) : Bool :=
  match extension path with
  | some ext => ["rlib".toList, "o".toList].contains ext
  | none => false

/-- `LinkInfo` from `src/link_info.rs`. -/
structure LinkInfo where
  crate_sel : CrateSel
  object_paths : List String
  output_file : String
  deriving DecidableEq

/-- `get_output_file` from `src/link_info.rs`: scan the argument list; at the
first `-o`, consume the next argument and return it, or keep scanning (and
ultimately fail) when `-o` was the final argument. -/
def get_output_file : List String → Except String String
  | [] => Except.error "Failed to find output file in linker command line"
  | arg :: rest =>
    if arg = "-o" then
      match rest with
      | output :: _ => Except.ok output
      | [] => Except.error "Failed to find output file in linker command line"
    else get_output_file rest

/-- `LinkInfo::from_env`: `argv` is the full argument list including the
program name; `crate_sel` stands for `CrateSel::from_env()`. The object
paths are the arguments after the program name with a supported extension. -/
def LinkInfo.from_env (crate_sel : CrateSel) (argv : List String) :
    Except String LinkInfo :=
  match get_output_file argv with
  | Except.ok output_file =>
    Except.ok
      { crate_sel
        object_paths := (argv.drop 1).filter has_supported_extension
        output_file }
  | Except.error e => Except.error e

/-- Specification-side formulation of `get_output_file`: the argument
following the first `-o` that has one. -/
def outputFileSpec (argv : List String) : Except String String :=
  match (argv.zip argv.tail).find? (fun e => e.1 = "-o") with
  | some e => Except.ok e.2
  | none => Except.error "Failed to find output file in linker command line"

/-- A fixed crate selector standing for the `CrateSel::from_env()` result in
concrete linker-invocation examples. -/
def testSel : CrateSel :=
  CrateSel.primary { name := "foo", version := "1.0.0", name_is_unique := true }

/-! `src/ui/full_term.rs` and `src/ui/full_term/problems_ui.rs`: the
interactive problem UI. Only the pure state machine is embedded: the problem
store is abstracted to its number of problems, the available edits to their
count, and config-file side effects are omitted. A Rust panic is `none`. -/

/-- The key codes `ProblemsUi::handle_key` and `update_counter` match on
(from the external `crossterm` crate). -/
inductive KeyCode where
  | up
  | down
  | enter
  | esc
  | char (c : Char)
  deriving DecidableEq

/-- `Mode` from `src/ui/full_term/problems_ui.rs`. -/
inductive Mode where
  | selectProblem
  | selectEdit
  | promptAutoAccept
  | help
  deriving DecidableEq

/-- `update_counter` from `src/ui/full_term.rs`: wrap the counter at `len`.
`KeyCode::Up` computes `(counter + len - 1) % len`, `KeyCode::Down` computes
`(counter + len + 1) % len`; with `len = 0` either expression panics (`none`:
remainder by zero, and for `Up` the `usize` subtraction also overflows), as
does any key other than Up or Down. -/
def update_counter (counter : Nat) (key_code : KeyCode) (len : Nat) :
    Option Nat :=
  match key_code with
  | KeyCode.up => if len = 0 then none else some ((counter + len - 1) % len)
  | KeyCode.down => if len = 0 then none else some ((counter + len + 1) % len)
  | _ => none

/-- The state of `ProblemsUi`, with the problem store abstracted to its
length and the edit list of the selected problem to its length. -/
structure ProblemsUi where
  modes : List Mode
  problem_index : Nat
  edit_index : Nat
  store_len : Nat
  num_edits : Nat
  accept_single_enabled : Bool
  deriving DecidableEq

/-- `ProblemsUi::handle_key`. `none` is a panic; a `bail!` (the "no
automatic edits" error) returns the state unchanged (the caller displays the
error). Edit application (`apply_selected_edit`,
`accept_all_single_edits`) is modelled as leaving the abstracted store and
edit counts unchanged. -/
def handle_key (s : ProblemsUi) (key : KeyCode) : Option ProblemsUi :=
  match s.modes.getLast? with
  | none => some s
  | some mode =>
    if key = KeyCode.char 'q' then some { s with modes := [] }
    else
      match mode, key with
      | Mode.selectProblem, KeyCode.up
      | Mode.selectProblem, KeyCode.down =>
        (update_counter s.problem_index key s.store_len).map
          (fun i => { s with problem_index := i })
      | Mode.selectEdit, KeyCode.up
      | Mode.selectEdit, KeyCode.down =>
        (update_counter s.edit_index key s.num_edits).map
          (fun i => { s with edit_index := i })
      | Mode.selectProblem, KeyCode.char ' '
      | Mode.selectProblem, KeyCode.enter =>
        if s.num_edits = 0 then some s
        else some { s with modes := s.modes ++ [Mode.selectEdit], edit_index := 0 }
      | Mode.selectEdit, KeyCode.char ' '
      | Mode.selectEdit, KeyCode.enter =>
        let s := if s.problem_index ≥ s.store_len
          then { s with problem_index := 0 } else s
        some { s with modes := s.modes.dropLast }
      | Mode.selectProblem, KeyCode.char 'a' =>
        if ¬s.accept_single_enabled then
          some { s with modes := s.modes ++ [Mode.promptAutoAccept] }
        else some s
      | Mode.promptAutoAccept, KeyCode.enter =>
        some { s with accept_single_enabled := true, modes := s.modes.dropLast }
      | _, KeyCode.char 'h'
      | _, KeyCode.char '?' => some { s with modes := s.modes ++ [Mode.help] }
      | _, KeyCode.esc =>
        if s.modes.length ≥ 2 then some { s with modes := s.modes.dropLast }
        else some s
      | _, _ => some s

lemma foldl_insert_eq (l : List Nat) (s : Finset Nat) :
    l.foldl (fun s p => insert p s) s = s ∪ l.toFinset := by
  induction l generalizing s with
  | nil => simp
  | cons a t ih =>
    rw [List.foldl_cons, ih]
    ext x
    simp only [Finset.mem_union, Finset.mem_insert, List.toFinset_cons,
      List.mem_toFinset]
    tauto

lemma foldl_erase_eq (l : List Nat) (s : Finset Nat) :
    l.foldl (fun s p => s.erase p) s = s \ l.toFinset := by
  induction l generalizing s with
  | nil => simp
  | cons a t ih =>
    rw [List.foldl_cons, ih]
    ext x
    simp only [Finset.mem_sdiff, Finset.mem_erase, List.toFinset_cons,
      List.mem_toFinset, Finset.mem_insert]
    tauto

lemma apStep_eq (c : Checker) (pre : String) (S : Finset Nat) (p : String)
    (h : pre ≠ "") :
    apStep c (pre, S) p = (pre ++ "::" ++ p, specStep c S (pre ++ "::" ++ p)) := by
  unfold apStep specStep inclSet exclSet
  simp only [if_neg h, foldl_insert_eq, foldl_erase_eq]

lemma joinPath_cons (p : String) (l : List String) (h : l ≠ []) :
    joinPath (p :: l) = p ++ "::" ++ joinPath l := by
  cases l with
  | nil => exact absurd rfl h
  | cons a t => rfl

lemma takeJoins_cons (p : String) (rest : List String) :
    takeJoins (p :: rest) =
      p :: (takeJoins rest).map (fun s => p ++ "::" ++ s) := by
  unfold takeJoins
  rw [List.length_cons, List.range_succ_eq_map, List.map_cons, List.map_map,
    List.map_map]
  refine congrArg₂ _ rfl ?_
  refine List.map_congr_left ?_
  intro k hk
  simp only [Function.comp_apply, List.mem_range] at hk ⊢
  have hrest : rest ≠ [] := by
    intro hnil
    rw [hnil] at hk
    exact Nat.not_lt_zero k hk
  have htake : rest.take (k + 1) ≠ [] := by
    simp [List.take_eq_nil_iff, hrest]
  rw [List.take_succ_cons, joinPath_cons p _ htake]

lemma fold_apStep (c : Checker) :
    ∀ (parts : List String) (pre : String) (S : Finset Nat), pre ≠ "" →
      (parts.foldl (apStep c) (pre, S)).2 =
        ((takeJoins parts).map (fun s => pre ++ "::" ++ s)).foldl
          (specStep c) S := by
  intro parts
  induction parts with
  | nil => intro pre S _; rfl
  | cons p rest ih =>
    intro pre S h
    have hcons : pre ++ "::" ++ p ≠ "" := by
      intro hempty
      have hlen : (pre ++ "::" ++ p).length = 0 := by rw [hempty]; rfl
      have h2 : ("::" : String).length = 2 := rfl
      rw [String.length_append, String.length_append, h2] at hlen
      omega
    rw [List.foldl_cons, apStep_eq c pre S p h, ih _ _ hcons,
      takeJoins_cons, List.map_cons, List.foldl_cons, List.map_map]
    refine congrArg _ ?_
    refine List.map_congr_left ?_
    intro s _
    simp only [Function.comp_apply, String.append_assoc]

/-- For a parts list whose first part is non-empty (as produced by splitting
any genuine symbol path on `::`), the incremental walk of
`Checker::apis_for_path` agrees with the spec's `join("::")` prefix walk. -/
lemma apis_for_path_eq_spec (c : Checker) (parts : List String)
    (h : parts.head? ≠ some "") :
    c.apis_for_path parts = apisForPathSpec c parts := by
  cases parts with
  | nil => rfl
  | cons p rest =>
    have hp : p ≠ "" := by
      intro hp
      exact h (by rw [hp]; rfl)
    unfold Checker.apis_for_path apisForPathSpec
    have hstep : apStep c ("", ∅) p = (p, specStep c (∅ : Finset Nat) p) := by
      unfold apStep specStep inclSet exclSet
      simp only [if_pos rfl, foldl_insert_eq, foldl_erase_eq]
      rfl
    rw [List.foldl_cons, hstep, fold_apStep c rest p _ hp, takeJoins_cons,
      List.foldl_cons]

/-- C1 (counterexample): the claim's `join("::")` description of
`apis_for_path` fails on the parts list `["", "x"]` (the split of the symbol
`::x`): the source's incremental prefix never inserts a separator after an
empty accumulated name, so it looks up `x` where the claimed join walk looks
up `::x`, and with an inclusion keyed `x` the two walks disagree. -/
theorem apis_for_path_join_counterexample :
    cexChecker.apis_for_path ["", "x"] ≠ apisForPathSpec cexChecker ["", "x"] := by
  decide

/-- C1 (amended): for every configuration and every parts list whose first
part is non-empty (which covers the split of every symbol path not beginning
with `::`), `apis_for_path` walks the successive `::`-joined prefixes in
increasing length, at each prefix first adding the inclusions and then
removing the exclusions; and on the test configuration (`perm.fs` including
`std::env` / excluding `std::env::var`, `perm.env` and `perm.env2` both
including `std::env`, with ids `fs ↦ 0`, `env ↦ 1`, `env2 ↦ 2`) the path
`std::env::var` yields `{env, env2}`, `std::env::exe` yields
`{env, env2, fs}`, and the empty parts list yields the empty set. -/
theorem apis_for_path_correct :
    (∀ (c : Checker) (parts : List String), parts.head? ≠ some "" →
      c.apis_for_path parts = apisForPathSpec c parts) ∧
    testChecker.permission_names = ["fs", "env", "env2"] ∧
    testChecker.apis_for_path ["std", "env", "var"] = {1, 2} ∧
    testChecker.apis_for_path ["std", "env", "exe"] = {0, 1, 2} ∧
    testChecker.apis_for_path [] = ∅ := by
  refine ⟨apis_for_path_eq_spec, by decide, by decide, by decide, by decide⟩

/-- C1 (witness): the amended equivalence applied at the test checker and
the concrete path `std::env::var`. -/
theorem apis_for_path_correct_witness :
    testChecker.apis_for_path ["std", "env", "var"] =
      apisForPathSpec testChecker ["std", "env", "var"] :=
  apis_for_path_correct.1 testChecker ["std", "env", "var"] (by decide)

/-- C3 (counterexample): contrary to the claim, `Problem::severity` does not
return `Warning` for `ImportStdApi` — its `match` lists only
`UnusedAllowApi`, `UnusedPackageConfig`, `PossibleExportedApi` and
`AvailableApi` before the catch-all `Error` arm. -/
theorem severity_import_std_api_counterexample :
    ¬(Problem.importStdApi "fs").severity = Severity.warning := by
  decide

/-- C3 (amended): `Problem::severity` returns `Warning` exactly for
`UnusedAllowApi`, `UnusedPackageConfig`, `AvailableApi` and
`PossibleExportedApi`; `ImportStdApi` and every other variant are
`Severity::Error`. -/
theorem severity_characterization :
    (∀ i, (Problem.unusedAllowApi i).severity = Severity.warning) ∧
    (∀ n, (Problem.unusedPackageConfig n).severity = Severity.warning) ∧
    (∀ i, (Problem.availableApi i).severity = Severity.warning) ∧
    (∀ i, (Problem.possibleExportedApi i).severity = Severity.warning) ∧
    (∀ a, (Problem.importStdApi a).severity = Severity.error) ∧
    (∀ t, (Problem.message t).severity = Severity.error) ∧
    (∀ p, (Problem.missingConfiguration p).severity = Severity.error) ∧
    (∀ b, (Problem.usesBuildScript b).severity = Severity.error) ∧
    (∀ u, (Problem.disallowedUnsafe u).severity = Severity.error) ∧
    (∀ p, (Problem.isProcMacro p).severity = Severity.error) ∧
    (∀ u, (Problem.disallowedApiUsage u).severity = Severity.error) ∧
    (∀ f, (Problem.buildScriptFailed f).severity = Severity.error) ∧
    (∀ i, (Problem.disallowedBuildInstruction i).severity = Severity.error) ∧
    Problem.selectSandbox.severity = Severity.error := by
  refine ⟨fun _ => rfl, fun _ => rfl, fun _ => rfl, fun _ => rfl, fun _ => rfl,
    fun _ => rfl, fun _ => rfl, fun _ => rfl, fun _ => rfl, fun _ => rfl,
    fun _ => rfl, fun _ => rfl, fun _ => rfl, rfl⟩

/-- C10: for `len > 0`, `update_counter` sends `KeyCode::Up` to
`(counter + len - 1) % len` and `KeyCode::Down` to `(counter + 1) % len`
(the source computes `(counter + len + 1) % len`, which is equal), both in
`[0, len)`; with `len = 0` both arrow keys panic (remainder by zero), and
the panic is reachable from `ProblemsUi::handle_key` by pressing an arrow
key in `SelectProblem` mode while the problem store is empty. -/
theorem update_counter_correct :
    (∀ (counter len : Nat), 0 < len →
      update_counter counter KeyCode.up len =
        some ((counter + len - 1) % len) ∧
      update_counter counter KeyCode.down len = some ((counter + 1) % len) ∧
      (counter + len - 1) % len < len ∧ (counter + 1) % len < len) ∧
    (∀ counter : Nat,
      update_counter counter KeyCode.up 0 = none ∧
      update_counter counter KeyCode.down 0 = none) ∧
    handle_key
      { modes := [Mode.selectProblem], problem_index := 0, edit_index := 0,
        store_len := 0, num_edits := 0, accept_single_enabled := false }
      KeyCode.down = none ∧
    handle_key
      { modes := [Mode.selectProblem], problem_index := 0, edit_index := 0,
        store_len := 0, num_edits := 0, accept_single_enabled := false }
      KeyCode.up = none := by
  refine ⟨?_, ?_, by decide, by decide⟩
  · intro counter len h
    have hne : ¬len = 0 := Nat.pos_iff_ne_zero.mp h
    refine ⟨by simp only [update_counter, if_neg hne], ?_, Nat.mod_lt _ h,
      Nat.mod_lt _ h⟩
    simp only [update_counter, if_neg hne]
    rw [show counter + len + 1 = counter + 1 + len from by omega,
      Nat.add_mod_right]
  · intro counter
    exact ⟨rfl, rfl⟩

/-- C10 (witness): the wrapping formulas evaluated at `counter = 2`,
`len = 3`. -/
theorem update_counter_correct_witness :
    update_counter 2 KeyCode.up 3 = some 1 ∧
      update_counter 2 KeyCode.down 3 = some 0 := by
  have h := update_counter_correct.1 2 3 (by decide)
  exact ⟨h.1.trans (by decide), h.2.1.trans (by decide)⟩

lemma get_output_file_eq_spec (argv : List String) :
    get_output_file argv = outputFileSpec argv := by
  induction argv with
  | nil => rfl
  | cons arg rest ih =>
    by_cases h : arg = "-o"
    · subst h
      cases rest with
      | nil => rfl
      | cons b t => rfl
    · cases rest with
      | nil => simp [get_output_file, outputFileSpec, h]
      | cons b t =>
        calc get_output_file (arg :: b :: t) = get_output_file (b :: t) := by
              simp [get_output_file, h]
          _ = outputFileSpec (b :: t) := ih
          _ = outputFileSpec (arg :: b :: t) := by
              simp only [outputFileSpec, List.tail_cons, List.zip_cons_cons]
              rw [List.find?_cons_of_neg _ (by simpa using h)]

lemma get_output_file_ok_iff (argv : List String) :
    (∃ out, get_output_file argv = Except.ok out) ↔
      ∃ l1 out l2, argv = l1 ++ "-o" :: out :: l2 := by
  induction argv with
  | nil =>
    constructor
    · rintro ⟨out, hout⟩
      cases hout
    · rintro ⟨l1, out, l2, hd⟩
      cases l1 <;> simp at hd
  | cons arg rest ih =>
    by_cases h : arg = "-o"
    · subst h
      cases rest with
      | nil =>
        constructor
        · rintro ⟨out, hout⟩
          cases hout
        · rintro ⟨l1, out, l2, hd⟩
          have hlen := congrArg List.length hd
          simp only [List.length_cons, List.length_nil, List.length_append]
            at hlen
          omega
      | cons b t =>
        constructor
        · intro _
          exact ⟨[], b, t, rfl⟩
        · intro _
          exact ⟨b, rfl⟩
    · have hstep : get_output_file (arg :: rest) = get_output_file rest := by
        simp [get_output_file, h]
      rw [hstep, ih]
      constructor
      · rintro ⟨l1, out, l2, hd⟩
        exact ⟨arg :: l1, out, l2, by rw [hd]; rfl⟩
      · rintro ⟨l1, out, l2, hd⟩
        cases l1 with
        | nil =>
          simp only [List.nil_append, List.cons.injEq] at hd
          exact absurd hd.1 h
        | cons a t1 =>
          simp only [List.cons_append, List.cons.injEq] at hd
          exact ⟨t1, out, l2, hd.2⟩

lemma get_output_file_first (l1 : List String) (out : String)
    (l2 : List String) (h : "-o" ∉ l1) :
    get_output_file (l1 ++ "-o" :: out :: l2) = Except.ok out := by
  induction l1 with
  | nil => rfl
  | cons a t ih =>
    have ha : a ≠ "-o" := fun hEq => h (by rw [hEq]; exact List.mem_cons_self _ _)
    have ht : "-o" ∉ t := fun hm => h (List.mem_cons_of_mem _ hm)
    simpa [get_output_file, ha] using ih ht

/-- C7: `LinkInfo::from_env` sets `object_paths` to exactly the arguments
after the program name whose extension is `o` or `rlib`, in argument order;
it fails exactly when the argument list contains no `-o` followed by a
further argument; and on success `output_file` is the argument following the
first `-o` that has one (equivalently, `get_output_file` agrees with the
first-`-o`-with-follower specification). -/
theorem link_info_from_env_correct :
    (∀ argv : List String, get_output_file argv = outputFileSpec argv) ∧
    (∀ (sel : CrateSel) (argv : List String) (li : LinkInfo),
      LinkInfo.from_env sel argv = Except.ok li →
        li.object_paths = (argv.drop 1).filter has_supported_extension ∧
          li.crate_sel = sel) ∧
    (∀ (sel : CrateSel) (argv : List String),
      (∃ e, LinkInfo.from_env sel argv = Except.error e) ↔
        ¬∃ l1 out l2, argv = l1 ++ "-o" :: out :: l2) ∧
    (∀ (sel : CrateSel) (l1 : List String) (out : String) (l2 : List String),
      "-o" ∉ l1 →
        LinkInfo.from_env sel (l1 ++ "-o" :: out :: l2) =
          Except.ok
            { crate_sel := sel
              object_paths :=
                ((l1 ++ "-o" :: out :: l2).drop 1).filter
                  has_supported_extension
              output_file := out }) := by
  refine ⟨get_output_file_eq_spec, ?_, ?_, ?_⟩
  · intro sel argv li h
    unfold LinkInfo.from_env at h
    cases hg : get_output_file argv with
    | ok o =>
      rw [hg] at h
      cases h
      exact ⟨rfl, rfl⟩
    | error e =>
      rw [hg] at h
      cases h
  · intro sel argv
    rw [← get_output_file_ok_iff]
    constructor
    · rintro ⟨e, he⟩ ⟨out, hout⟩
      unfold LinkInfo.from_env at he
      rw [hout] at he
      cases he
    · intro hno
      cases hg : get_output_file argv with
      | ok o => exact absurd ⟨o, hg⟩ hno
      | error e => exact ⟨e, by unfold LinkInfo.from_env; rw [hg]⟩
  · intro sel l1 out l2 h
    unfold LinkInfo.from_env
    rw [get_output_file_first l1 out l2 h]

/-- C7 (witness): a concrete linker command line with two object inputs and
an `-o` flag. -/
theorem link_info_from_env_correct_witness :
    LinkInfo.from_env testSel ["cc", "main.o", "lib.rlib", "-o", "out"] =
      Except.ok
        { crate_sel := testSel, object_paths := ["main.o", "lib.rlib"],
          output_file := "out" } := by
  have h := link_info_from_env_correct.2.2.2 testSel ["cc", "main.o", "lib.rlib"]
    "out" [] (by decide)
  exact h.trans (congrArg Except.ok (by decide))

lemma checkUnusedStep_eq (c : Checker) (uc : UnusedConfig)
    (info : CrateInfo) :
    checkUnusedStep c uc info =
      { unknown_crates := uc.unknown_crates ++ (ucStep1 info).toList
        unused_allow_apis :=
          uc.unused_allow_apis ++ (ucStep2 c info).toList } := by
  unfold checkUnusedStep ucStep1 ucStep2
  cases info.name with
  | none => simp
  | some crate_name =>
    by_cases h1 : info.used = false ∧ info.has_config = true <;>
      by_cases h2 : info.unused_allowed_perms = ∅ <;>
        simp [h1, h2, Bool.not_eq_true]

lemma ucStep1_none_iff (info : CrateInfo) :
    ucStep1 info = none ↔
      (info.name = none ∨ (info.has_config → info.used)) := by
  unfold ucStep1
  cases hn : info.name with
  | none => simp
  | some nm =>
    by_cases h : info.used <;> by_cases hc : info.has_config <;>
      simp [h, hc]

lemma ucStep2_none_iff (c : Checker) (info : CrateInfo) :
    ucStep2 c info = none ↔
      (info.name = none ∨ info.unused_allowed_perms = ∅) := by
  unfold ucStep2
  cases hn : info.name with
  | none => simp
  | some nm => by_cases h : info.unused_allowed_perms = ∅ <;> simp [h]

lemma checkUnused_foldl (c : Checker) (l : List CrateInfo)
    (uc : UnusedConfig) :
    l.foldl (checkUnusedStep c) uc =
      { unknown_crates := uc.unknown_crates ++ l.filterMap ucStep1
        unused_allow_apis :=
          uc.unused_allow_apis ++ l.filterMap (ucStep2 c) } := by
  induction l generalizing uc with
  | nil => simp
  | cons info t ih =>
    rw [List.foldl_cons, checkUnusedStep_eq, ih]
    cases hs1 : ucStep1 info <;> cases hs2 : ucStep2 c info <;>
      simp [hs1, hs2, List.filterMap_cons]

lemma check_unused_eq (c : Checker) :
    c.check_unused =
      if unusedSpec c = ({} : UnusedConfig) then Except.ok ()
      else Except.error (unusedSpec c) := by
  unfold Checker.check_unused
  rw [checkUnused_foldl]
  rfl

/-- C6: `check_unused` returns `Ok` exactly when every named crate has been
used whenever it has config and has no never-used allowed permissions; on
`Err` the returned `UnusedConfig` lists exactly the names of the crates with
config never reported used, and, per crate, the names of the allowed
permissions never observed used. (Nameless crate infos — only the
`UNKNOWN_CRATE_ID` sentinel — are skipped, and the embedding is a pure
function of the checker, which the source borrows immutably.) -/
theorem check_unused_correct (c : Checker) :
    (c.check_unused = Except.ok () ↔
      unknownCratesSpec c = [] ∧ unusedAllowApisSpec c = []) ∧
    (∀ uc, c.check_unused = Except.error uc → uc = unusedSpec c) ∧
    (c.check_unused = Except.ok () ↔
      ∀ info ∈ c.crate_infos, info.name ≠ none →
        (info.has_config → info.used) ∧ info.unused_allowed_perms = ∅) := by
  have hok : c.check_unused = Except.ok () ↔
      unknownCratesSpec c = [] ∧ unusedAllowApisSpec c = [] := by
    rw [check_unused_eq]
    by_cases h : unusedSpec c = ({} : UnusedConfig)
    · rw [if_pos h]
      unfold unusedSpec at h
      simp only [UnusedConfig.mk.injEq] at h
      exact ⟨fun _ => h, fun _ => rfl⟩
    · rw [if_neg h]
      constructor
      · intro habs
        exact Except.noConfusion habs
      · intro hboth
        refine absurd ?_ h
        unfold unusedSpec
        rw [hboth.1, hboth.2]
  refine ⟨hok, ?_, ?_⟩
  · intro uc huc
    rw [check_unused_eq] at huc
    by_cases h : unusedSpec c = ({} : UnusedConfig)
    · rw [if_pos h] at huc
      exact Except.noConfusion huc
    · rw [if_neg h] at huc
      injection huc with huc
      exact huc.symm
  · rw [hok]
    unfold unknownCratesSpec unusedAllowApisSpec
    rw [List.filterMap_eq_nil_iff, List.filterMap_eq_nil_iff]
    constructor
    · intro ⟨ha, hb⟩ info hmem hname
      have h1 := (ucStep1_none_iff info).mp (ha info hmem)
      have h2 := (ucStep2_none_iff c info).mp (hb info hmem)
      rcases h1 with h1 | h1
      · exact absurd h1 hname
      rcases h2 with h2 | h2
      · exact absurd h2 hname
      exact ⟨h1, h2⟩
    · intro hall
      refine ⟨fun info hmem => (ucStep1_none_iff info).mpr ?_,
        fun info hmem => (ucStep2_none_iff c info).mpr ?_⟩
      · cases hn : info.name with
        | none => exact Or.inl rfl
        | some nm => exact Or.inr ((hall info hmem (by simp [hn])).1)
      · cases hn : info.name with
        | none => exact Or.inl rfl
        | some nm => exact Or.inr ((hall info hmem (by simp [hn])).2)

/-- C6 (witness): on the checker built from a config naming crate `foo` with
allowed permission `fs` (and no crate reported used), the error payload is
exactly the computed lists `["foo"]` and `[("foo", ["fs"])]`. -/
theorem check_unused_correct_witness :
    ({ unknown_crates := ["foo"], unused_allow_apis := [("foo", ["fs"])] } :
        UnusedConfig) = unusedSpec unusedWitnessChecker :=
  (check_unused_correct unusedWitnessChecker).2.1
    { unknown_crates := ["foo"], unused_allow_apis := [("foo", ["fs"])] }
    (by decide)

lemma permFold_eq (c : Checker) (cap : Int)
    (entries : List (Nat × List Usage)) (lines : List String) :
    entries.foldl (permFoldStep c cap) lines =
      lines ++ entries.flatMap
        (fun e => ("  " ++ c.permission_names.getD e.1 "" ++ ":") ::
          permUsageLines cap e.2) := by
  induction entries generalizing lines with
  | nil => simp
  | cons e t ih =>
    rw [List.foldl_cons, ih]
    simp [permFoldStep, permUsageLines, List.append_assoc]

lemma reportFold_eq (c : Checker) (cap : Int) (infos : List CrateInfo)
    (st : List String × Bool) :
    infos.foldl (reportStep c cap) st =
      (st.1 ++ infos.flatMap (crateBlock c cap),
       st.2 || infos.any (fun info => !info.disallowed_usage.isEmpty)) := by
  induction infos generalizing st with
  | nil => simp
  | cons info t ih =>
    rw [List.foldl_cons, ih]
    by_cases h : info.disallowed_usage.isEmpty
    · simp [reportStep, crateBlock, h]
    · simp [reportStep, crateBlock, h, permFold_eq, List.append_assoc]

/-- C9: the lines printed by `report_problems` decompose into one block per
crate with recorded disallowed usages, each listing, per permission, a
header followed by the capped usage lines; when the `--usage-report-cap`
argument is non-negative at most that many usage lines appear per
permission, and when it is negative every recorded usage is printed. The
response is `Deny` exactly when some crate has a recorded disallowed
usage. -/
theorem report_problems_cap_correct (c : Checker) (cap : Int) :
    c.report_problems cap =
      (c.crate_infos.flatMap (crateBlock c cap),
       if c.crate_infos.any (fun info => !info.disallowed_usage.isEmpty) then
         CanContinueResponse.deny
       else CanContinueResponse.proceed) ∧
    (∀ info ∈ c.crate_infos, ∀ e ∈ info.disallowed_usage,
      (0 ≤ cap → (permUsageLines cap e.2).length ≤ cap.toNat) ∧
      (cap < 0 → permUsageLines cap e.2 = e.2.map usageLine)) := by
  constructor
  · unfold Checker.report_problems
    rw [reportFold_eq]
    simp only [List.nil_append, Bool.false_or]
  · intro info _ e _
    constructor
    · intro hpos
      have hneg : ¬cap < 0 := not_lt.mpr hpos
      simp only [permUsageLines, if_neg hneg, List.length_map]
      exact le_trans (List.length_take_le _ _) le_rfl
    · intro hneg
      simp [permUsageLines, if_pos hneg, List.take_length]

/-- C9 (witness): with three recorded usages of permission `fs`, cap `2`
prints at most two usage lines and cap `-1` prints all three. -/
theorem report_problems_cap_correct_witness :
    (permUsageLines 2 wUsages).length ≤ (2 : Int).toNat ∧
      permUsageLines (-1) wUsages = wUsages.map usageLine :=
  ⟨((report_problems_cap_correct reportWitnessChecker 2).2 wInfo (by decide)
      (0, wUsages) (by decide)).1 (by decide),
   ((report_problems_cap_correct reportWitnessChecker (-1)).2 wInfo (by decide)
      (0, wUsages) (by decide)).2 (by decide)⟩

lemma mem_ascList (s : Finset Nat) (x : Nat) : x ∈ ascList s ↔ x ∈ s := by
  unfold ascList
  simp only [List.mem_filter, List.mem_range, decide_eq_true_eq]
  constructor
  · exact fun h => h.2
  · intro hx
    have hle : x ≤ s.sup id := Finset.le_sup (f := id) hx
    exact ⟨by omega, hx⟩

lemma ascList_nodup (s : Finset Nat) : (ascList s).Nodup :=
  (List.nodup_range _).filter _

lemma ascList_toFinset (s : Finset Nat) : (ascList s).toFinset = s := by
  ext x
  rw [List.mem_toFinset, mem_ascList]

lemma listModify_length {α : Type} (l : List α) (i : Nat) (f : α → α) :
    (listModify l i f).length = l.length := by
  induction l generalizing i with
  | nil => rfl
  | cons x xs ih =>
    cases i with
    | zero => rfl
    | succ n => simp [listModify, ih]

lemma listModify_getD {α : Type} (l : List α) (i : Nat) (f : α → α) (d : α)
    (h : i < l.length) :
    (listModify l i f).getD i d = f (l.getD i d) := by
  induction l generalizing i with
  | nil => exact absurd h (Nat.not_lt_zero i)
  | cons x xs ih =>
    cases i with
    | zero => rfl
    | succ n =>
      have hn : n < xs.length := Nat.lt_of_succ_lt_succ h
      simpa [listModify] using ih n hn

lemma listModify_mem {α : Type} {l : List α} {i : Nat} {f : α → α} {y : α}
    (hy : y ∈ listModify l i f) : y ∈ l ∨ ∃ x, x ∈ l ∧ y = f x := by
  induction l generalizing i with
  | nil => cases hy
  | cons x xs ih =>
    cases i with
    | zero =>
      rcases List.mem_cons.mp hy with h | h
      · exact Or.inr ⟨x, List.mem_cons_self x xs, h⟩
      · exact Or.inl (List.mem_cons_of_mem x h)
    | succ n =>
      rcases List.mem_cons.mp hy with h | h
      · exact Or.inl (h ▸ List.mem_cons_self x xs)
      · rcases ih h with h | ⟨z, hz, hyz⟩
        · exact Or.inl (List.mem_cons_of_mem x h)
        · exact Or.inr ⟨z, List.mem_cons_of_mem x hz, hyz⟩

lemma listModify_comp {α : Type} (l : List α) (i : Nat) (f g : α → α) :
    listModify (listModify l i f) i g = listModify l i (fun x => g (f x)) := by
  induction l generalizing i with
  | nil => rfl
  | cons x xs ih =>
    cases i with
    | zero => rfl
    | succ n => simp [listModify, ih]

lemma listModify_id {α : Type} (l : List α) (i : Nat) :
    listModify l i (fun x => x) = l := by
  induction l generalizing i with
  | nil => rfl
  | cons x xs ih =>
    cases i with
    | zero => rfl
    | succ n => simp [listModify, ih]

lemma setCrate_setCrate (c : Checker) (crate_id : Nat)
    (f g : CrateInfo → CrateInfo) :
    (c.setCrate crate_id f).setCrate crate_id g =
      c.setCrate crate_id (fun info => g (f info)) := by
  unfold Checker.setCrate
  simp [listModify_comp]

lemma foldl_setCrate (c : Checker) (crate_id : Nat) (L : List Nat)
    (step : Nat → CrateInfo → CrateInfo) :
    L.foldl (fun c pid => c.setCrate crate_id (step pid)) c =
      c.setCrate crate_id
        (fun info => L.foldl (fun info pid => step pid info) info) := by
  induction L generalizing c with
  | nil =>
    unfold Checker.setCrate
    rw [List.foldl_nil]
    show c = { c with crate_infos := listModify c.crate_infos crate_id (fun x => x) }
    rw [listModify_id]
  | cons p t ih =>
    rw [List.foldl_cons, ih, setCrate_setCrate]
    rfl

lemma permUsedInfo_allowed (perm_id : Nat) (u : Usage) (info : CrateInfo) :
    (permUsedInfo perm_id u info).allowed_perms = info.allowed_perms := by
  unfold permUsedInfo
  by_cases h : perm_id ∈ info.allowed_perms <;> simp [h]

lemma permUsedInfo_unused (perm_id : Nat) (u : Usage) (info : CrateInfo) :
    (permUsedInfo perm_id u info).unused_allowed_perms =
      info.unused_allowed_perms.erase perm_id := by
  unfold permUsedInfo
  by_cases h : perm_id ∈ info.allowed_perms <;> simp [h]

lemma permUsedInfo_disallowed (perm_id : Nat) (u : Usage) (info : CrateInfo) :
    (permUsedInfo perm_id u info).disallowed_usage =
      if perm_id ∈ info.allowed_perms then info.disallowed_usage
      else permUsedInfo.entryPushUsage info.disallowed_usage perm_id u := by
  unfold permUsedInfo
  by_cases h : perm_id ∈ info.allowed_perms <;> simp [h]

lemma permLookup_push_self (m : List (Nat × List Usage)) (k : Nat) (v : Usage) :
    permLookup (permUsedInfo.entryPushUsage m k v) k =
      some ((permLookup m k).getD [] ++ [v]) := by
  induction m with
  | nil => simp [permUsedInfo.entryPushUsage, permLookup]
  | cons e t ih =>
    by_cases h : e.1 = k
    · simp [permUsedInfo.entryPushUsage, permLookup, h]
    · simp only [permUsedInfo.entryPushUsage, if_neg h]
      rw [show permLookup (e :: permUsedInfo.entryPushUsage t k v) k =
          permLookup (permUsedInfo.entryPushUsage t k v) k from by
        simp [permLookup, List.find?_cons_of_neg, h],
        show permLookup (e :: t) k = permLookup t k from by
        simp [permLookup, List.find?_cons_of_neg, h], ih]

lemma permLookup_cons_ne (e : Nat × List Usage) (t : List (Nat × List Usage))
    (q : Nat) (h : ¬e.1 = q) : permLookup (e :: t) q = permLookup t q := by
  simp [permLookup, List.find?_cons_of_neg, h]

lemma permLookup_push_other (m : List (Nat × List Usage)) (k : Nat) (v : Usage)
    (q : Nat) (h : q ≠ k) :
    permLookup (permUsedInfo.entryPushUsage m k v) q = permLookup m q := by
  induction m with
  | nil => simp [permUsedInfo.entryPushUsage, permLookup, Ne.symm h]
  | cons e t ih =>
    by_cases he : e.1 = k
    · subst he
      have hq : ¬(e.1 = q) := fun hx => h hx.symm
      rw [show permUsedInfo.entryPushUsage (e :: t) e.1 v =
          (e.1, e.2 ++ [v]) :: t from by simp [permUsedInfo.entryPushUsage]]
      rw [permLookup_cons_ne _ _ _ hq,
        permLookup_cons_ne (e.1, e.2 ++ [v]) t q hq]
    · simp only [permUsedInfo.entryPushUsage, if_neg he]
      by_cases hq : e.1 = q
      · simp [permLookup, hq]
      · rw [permLookup_cons_ne _ _ _ hq, permLookup_cons_ne _ _ _ hq]
        exact ih

lemma permLookup_permUsedInfo_ne (p : Nat) (u : Usage) (info : CrateInfo)
    (q : Nat) (hq : q ≠ p) :
    permLookup (permUsedInfo p u info).disallowed_usage q =
      permLookup info.disallowed_usage q := by
  rw [permUsedInfo_disallowed]
  by_cases h : p ∈ info.allowed_perms
  · rw [if_pos h]
  · rw [if_neg h, permLookup_push_other _ _ _ _ hq]

lemma permUsed_fold (u : Usage) :
    ∀ (L : List Nat), L.Nodup → ∀ (info : CrateInfo),
      ((L.foldl (fun info pid => permUsedInfo pid u info) info).allowed_perms
          = info.allowed_perms) ∧
      ((L.foldl (fun info pid => permUsedInfo pid u info) info).unused_allowed_perms
          = info.unused_allowed_perms \ L.toFinset) ∧
      (∀ pid ∈ L, pid ∉ info.allowed_perms →
        permLookup
            (L.foldl (fun info pid => permUsedInfo pid u info) info).disallowed_usage
            pid =
          some ((permLookup info.disallowed_usage pid).getD [] ++ [u])) ∧
      (∀ pid, (pid ∉ L ∨ pid ∈ info.allowed_perms) →
        permLookup
            (L.foldl (fun info pid => permUsedInfo pid u info) info).disallowed_usage
            pid =
          permLookup info.disallowed_usage pid) := by
  intro L
  induction L with
  | nil =>
    intro _ info
    refine ⟨rfl, by simp, ?_, fun pid _ => rfl⟩
    intro pid hmem
    cases hmem
  | cons p t ih =>
    intro hnodup info
    have hpt : p ∉ t := (List.nodup_cons.mp hnodup).1
    have hnt : t.Nodup := (List.nodup_cons.mp hnodup).2
    obtain ⟨ih1, ih2, ih3, ih4⟩ := ih hnt (permUsedInfo p u info)
    simp only [List.foldl_cons]
    refine ⟨?_, ?_, ?_, ?_⟩
    · rw [ih1, permUsedInfo_allowed]
    · rw [ih2, permUsedInfo_unused]
      ext x
      simp only [Finset.mem_sdiff, Finset.mem_erase, List.toFinset_cons,
        Finset.mem_insert, List.mem_toFinset]
      tauto
    · intro pid hmem hnota
      rcases List.mem_cons.mp hmem with hp | hp
      · subst hp
        rw [ih4 pid (Or.inl hpt), permUsedInfo_disallowed, if_neg hnota,
          permLookup_push_self]
      · have hne : pid ≠ p := fun hx => hpt (hx ▸ hp)
        have hnota1 : pid ∉ (permUsedInfo p u info).allowed_perms := by
          rw [permUsedInfo_allowed]; exact hnota
        rw [ih3 pid hp hnota1, permLookup_permUsedInfo_ne p u info pid hne]
    · intro pid hcond
      rcases hcond with hnm | ha
      · have hne : pid ≠ p := fun hx => hnm (hx ▸ List.mem_cons_self p t)
        have hnt' : pid ∉ t := fun hx => hnm (List.mem_cons_of_mem p hx)
        rw [ih4 pid (Or.inl hnt'), permLookup_permUsedInfo_ne p u info pid hne]
      · have ha1 : pid ∈ (permUsedInfo p u info).allowed_perms := by
          rw [permUsedInfo_allowed]; exact ha
        rw [ih4 pid (Or.inr ha1), permUsedInfo_disallowed]
        by_cases h : p ∈ info.allowed_perms
        · rw [if_pos h]
        · have hne : pid ≠ p := fun hx => h (hx ▸ ha)
          rw [if_neg h, permLookup_push_other _ _ _ _ hne]

lemma path_used_rep (c : Checker) (crate_id : Nat) (parts : List String)
    (u : Usage) :
    c.path_used crate_id parts u =
      c.setCrate crate_id
        (fun info => (ascList (c.apis_for_path parts)).foldl
          (fun info pid => permUsedInfo pid u info) info) := by
  unfold Checker.path_used Checker.permission_id_used
  exact foldl_setCrate c crate_id _ _

lemma apis_setCrate (c : Checker) (crate_id : Nat) (f : CrateInfo → CrateInfo)
    (parts : List String) :
    (c.setCrate crate_id f).apis_for_path parts = c.apis_for_path parts := rfl

lemma path_used_length (c : Checker) (crate_id : Nat) (parts : List String)
    (u : Usage) :
    (c.path_used crate_id parts u).crate_infos.length =
      c.crate_infos.length := by
  rw [path_used_rep]
  exact listModify_length _ _ _

lemma path_used_apis (c : Checker) (crate_id : Nat) (parts parts2 : List String)
    (u : Usage) :
    (c.path_used crate_id parts u).apis_for_path parts2 =
      c.apis_for_path parts2 := by
  rw [path_used_rep]
  exact apis_setCrate c crate_id _ parts2

lemma path_used_at (c : Checker) (crate_id : Nat) (parts : List String)
    (u : Usage) (h : crate_id < c.crate_infos.length) :
    ((crateAt (c.path_used crate_id parts u) crate_id).allowed_perms
        = (crateAt c crate_id).allowed_perms) ∧
    ((crateAt (c.path_used crate_id parts u) crate_id).unused_allowed_perms
        = (crateAt c crate_id).unused_allowed_perms \ c.apis_for_path parts) ∧
    (∀ pid ∈ c.apis_for_path parts,
      pid ∉ (crateAt c crate_id).allowed_perms →
        permLookup
            (crateAt (c.path_used crate_id parts u) crate_id).disallowed_usage
            pid =
          some ((permLookup (crateAt c crate_id).disallowed_usage pid).getD []
            ++ [u])) ∧
    (∀ pid, (pid ∉ c.apis_for_path parts ∨
        pid ∈ (crateAt c crate_id).allowed_perms) →
      permLookup
          (crateAt (c.path_used crate_id parts u) crate_id).disallowed_usage
          pid =
        permLookup (crateAt c crate_id).disallowed_usage pid) := by
  have hAt : crateAt (c.path_used crate_id parts u) crate_id =
      (ascList (c.apis_for_path parts)).foldl
        (fun info pid => permUsedInfo pid u info) (crateAt c crate_id) := by
    rw [path_used_rep]
    unfold crateAt Checker.setCrate
    exact listModify_getD _ _ _ _ h
  obtain ⟨h1, h2, h3, h4⟩ := permUsed_fold u (ascList (c.apis_for_path parts))
    (ascList_nodup _) (crateAt c crate_id)
  rw [ascList_toFinset] at h2
  refine ⟨by rw [hAt]; exact h1, by rw [hAt]; exact h2, ?_, ?_⟩
  · intro pid hpid hnota
    rw [hAt]
    exact h3 pid ((mem_ascList _ _).mpr hpid) hnota
  · intro pid hcond
    rw [hAt]
    refine h4 pid ?_
    rcases hcond with hnm | ha
    · exact Or.inl (fun hx => hnm ((mem_ascList _ _).mp hx))
    · exact Or.inr ha

/-- C2: `path_used` removes every permission matched by `apis_for_path` from
the crate's `unused_allowed_perms`, leaves `allowed_perms` unchanged, and
appends exactly one usage (produced by the compute-usage thunk) to
`disallowed_usage[perm]` for each matched permission not in the crate's
`allowed_perms`; matched-but-allowed and unmatched permissions add no entry,
and two successive calls with disallowed matches append two separate usage
entries. -/
theorem path_used_correct (c : Checker) (crate_id : Nat) (parts : List String)
    (u1 u2 : Usage) (h : crate_id < c.crate_infos.length) :
    ((crateAt (c.path_used crate_id parts u1) crate_id).allowed_perms
        = (crateAt c crate_id).allowed_perms) ∧
    ((crateAt (c.path_used crate_id parts u1) crate_id).unused_allowed_perms
        = (crateAt c crate_id).unused_allowed_perms \ c.apis_for_path parts) ∧
    (∀ pid ∈ c.apis_for_path parts,
      pid ∉ (crateAt c crate_id).allowed_perms →
        permLookup
            (crateAt (c.path_used crate_id parts u1) crate_id).disallowed_usage
            pid =
          some ((permLookup (crateAt c crate_id).disallowed_usage pid).getD []
            ++ [u1])) ∧
    (∀ pid, (pid ∉ c.apis_for_path parts ∨
        pid ∈ (crateAt c crate_id).allowed_perms) →
      permLookup
          (crateAt (c.path_used crate_id parts u1) crate_id).disallowed_usage
          pid =
        permLookup (crateAt c crate_id).disallowed_usage pid) ∧
    (∀ pid ∈ c.apis_for_path parts,
      pid ∉ (crateAt c crate_id).allowed_perms →
        permLookup
            (crateAt ((c.path_used crate_id parts u1).path_used crate_id parts
              u2) crate_id).disallowed_usage pid =
          some ((permLookup (crateAt c crate_id).disallowed_usage pid).getD []
            ++ [u1, u2])) := by
  obtain ⟨h1, h2, h3, h4⟩ := path_used_at c crate_id parts u1 h
  refine ⟨h1, h2, h3, h4, ?_⟩
  intro pid hpid hnota
  have hlen : crate_id < (c.path_used crate_id parts u1).crate_infos.length := by
    rw [path_used_length]; exact h
  obtain ⟨g1, g2, g3, g4⟩ :=
    path_used_at (c.path_used crate_id parts u1) crate_id parts u2 hlen
  have hapis := path_used_apis c crate_id parts parts u1
  rw [hapis] at g3
  have hnota1 : pid ∉
      (crateAt (c.path_used crate_id parts u1) crate_id).allowed_perms := by
    rw [h1]; exact hnota
  have hg := g3 pid hpid hnota1
  rw [h3 pid hpid hnota] at hg
  rw [hg]
  simp

/-- C2 (witness): on the test checker with crate `crab1` (id 1) allowing
`env` (id 1), recording `std::env::var` (matching `{env, env2}`) removes
both matched permissions from `unused_allowed_perms` and appends one usage
under the disallowed `env2` (id 2) only. -/
theorem path_used_correct_witness :
    permLookup
        (crateAt (pathWitnessChecker.path_used 1 ["std", "env", "var"]
          (Usage.unknown "a.o")) 1).disallowed_usage 2 =
      some [Usage.unknown "a.o"] ∧
    (crateAt (pathWitnessChecker.path_used 1 ["std", "env", "var"]
        (Usage.unknown "a.o")) 1).unused_allowed_perms = ∅ := by
  have h := path_used_correct pathWitnessChecker 1 ["std", "env", "var"]
    (Usage.unknown "a.o") (Usage.unknown "b.o") (by decide)
  exact ⟨(h.2.2.1 2 (by decide) (by decide)).trans (by decide),
    h.2.1.trans (by decide)⟩

lemma checkerInv_congr {c1 c2 : Checker}
    (h : c1.crate_infos = c2.crate_infos) (hc : checkerInv c1) :
    checkerInv c2 := by
  intro info hmem
  exact hc info (h ▸ hmem)

lemma checkerInv_setCrate (c : Checker) (crate_id : Nat)
    (f : CrateInfo → CrateInfo)
    (hf : ∀ info : CrateInfo,
      info.unused_allowed_perms ⊆ info.allowed_perms →
        (f info).unused_allowed_perms ⊆ (f info).allowed_perms)
    (hc : checkerInv c) : checkerInv (c.setCrate crate_id f) := by
  intro info hmem
  rcases listModify_mem hmem with hold | ⟨x, hx, rfl⟩
  · exact hc info hold
  · exact hf x (hc x hx)

lemma perm_id_crates (c : Checker) (p : String) :
    ((c.perm_id p).2).crate_infos = c.crate_infos := by
  unfold Checker.perm_id
  cases c.permission_names.indexOf? p <;> rfl

lemma checkerInv_perm_id (c : Checker) (p : String) (hc : checkerInv c) :
    checkerInv (c.perm_id p).2 :=
  checkerInv_congr (perm_id_crates c p).symm hc

lemma foldl_incl_crates (id : Nat) (l : List String) (c : Checker) :
    ((l.foldl
      (fun c pre => { c with inclusions := entryPush c.inclusions pre id })
      c)).crate_infos = c.crate_infos := by
  induction l generalizing c with
  | nil => rfl
  | cons p t ih => rw [List.foldl_cons]; exact ih _

lemma foldl_excl_crates (id : Nat) (l : List String) (c : Checker) :
    ((l.foldl
      (fun c pre => { c with exclusions := entryPush c.exclusions pre id })
      c)).crate_infos = c.crate_infos := by
  induction l generalizing c with
  | nil => rfl
  | cons p t ih => rw [List.foldl_cons]; exact ih _

lemma addPerm_crates (c : Checker) (entry : String × ApiConfig) :
    (Checker.addPerm c entry).crate_infos = c.crate_infos := by
  show ((entry.2.excl.foldl _ (entry.2.incl.foldl _
    (c.perm_id entry.1).2))).crate_infos = c.crate_infos
  rw [foldl_excl_crates, foldl_incl_crates, perm_id_crates]

lemma foldl_addPerm_crates (l : List (String × ApiConfig)) (c : Checker) :
    ((l.foldl Checker.addPerm c)).crate_infos = c.crate_infos := by
  induction l generalizing c with
  | nil => rfl
  | cons e t ih =>
    rw [List.foldl_cons, ih, addPerm_crates]

lemma checkerInv_crate_id_from_name (c : Checker) (crate_name : String)
    (hc : checkerInv c) : checkerInv (c.crate_id_from_name crate_name).2 := by
  unfold Checker.crate_id_from_name
  cases assocGet c.crate_name_to_index crate_name with
  | some id => exact hc
  | none =>
    intro info hmem
    rcases List.mem_append.mp hmem with hold | hnew
    · exact hc info hold
    · rcases List.mem_singleton.mp hnew with rfl
      exact Finset.empty_subset _

lemma checkerInv_allow_fold (crate_id : Nat) (l : List String) :
    ∀ c : Checker, checkerInv c →
      checkerInv (l.foldl
        (fun c perm =>
          let (perm_id, c) := c.perm_id perm
          c.setCrate crate_id (fun info =>
            { info with
              allowed_perms := insert perm_id info.allowed_perms
              unused_allowed_perms :=
                insert perm_id info.unused_allowed_perms })) c) := by
  induction l with
  | nil => intro c hc; exact hc
  | cons p t ih =>
    intro c hc
    rw [List.foldl_cons]
    refine ih _ ?_
    show checkerInv (((c.perm_id p).2).setCrate crate_id _)
    refine checkerInv_setCrate _ _ _ ?_ (checkerInv_perm_id c p hc)
    intro info hsub
    exact Finset.insert_subset_insert _ hsub

lemma checkerInv_addCrate (c : Checker) (entry : String × CrateConfig)
    (hc : checkerInv c) : checkerInv (Checker.addCrate c entry) := by
  show checkerInv (entry.2.allow.foldl _
    (((c.crate_id_from_name entry.1).2).setCrate
      (c.crate_id_from_name entry.1).1 _))
  refine checkerInv_allow_fold _ _ _ ?_
  refine checkerInv_setCrate _ _ _ ?_
    (checkerInv_crate_id_from_name c entry.1 hc)
  intro info hsub
  exact hsub

lemma checkerInv_foldl_addCrate (l : List (String × CrateConfig)) :
    ∀ c : Checker, checkerInv c → checkerInv (l.foldl Checker.addCrate c) := by
  induction l with
  | nil => intro c hc; exact hc
  | cons e t ih =>
    intro c hc
    rw [List.foldl_cons]
    exact ih _ (checkerInv_addCrate c e hc)

/-- C4: `unused_allowed_perms ⊆ allowed_perms` holds for every crate of a
checker built by `from_config` (permissions enter the two sets together) and
is preserved by `path_used` (which only erases from `unused_allowed_perms`),
by `report_crate_used`, and by `crate_id_from_name` (a fresh crate has both
sets empty). -/
theorem unused_subset_allowed_invariant :
    (∀ config : Config, checkerInv (Checker.from_config config)) ∧
    (∀ (c : Checker) (crate_id : Nat) (parts : List String) (u : Usage),
      checkerInv c → checkerInv (c.path_used crate_id parts u)) ∧
    (∀ (c : Checker) (crate_id : Nat),
      checkerInv c → checkerInv (c.report_crate_used crate_id)) ∧
    (∀ (c : Checker) (crate_name : String),
      checkerInv c → checkerInv (c.crate_id_from_name crate_name).2) := by
  refine ⟨?_, ?_, ?_, fun c n hc => checkerInv_crate_id_from_name c n hc⟩
  · intro config
    unfold Checker.from_config
    refine checkerInv_foldl_addCrate _ _ ?_
    refine checkerInv_congr (foldl_addPerm_crates config.perms _).symm ?_
    intro info hmem
    rcases List.mem_singleton.mp hmem with rfl
    exact Finset.empty_subset _
  · intro c crate_id parts u hc
    rw [path_used_rep]
    refine checkerInv_setCrate _ _ _ ?_ hc
    intro info hsub
    obtain ⟨h1, h2, -, -⟩ := permUsed_fold u (ascList (c.apis_for_path parts))
      (ascList_nodup _) info
    rw [h1, h2]
    exact Finset.sdiff_subset.trans hsub
  · intro c crate_id hc
    refine checkerInv_setCrate _ _ _ ?_ hc
    intro info hsub
    exact hsub

/-- C4 (witness): the invariant holds for the checker built from the test
config with crate `crab1`, and is preserved by a concrete `path_used`
call. -/
theorem unused_subset_allowed_invariant_witness :
    checkerInv (pathWitnessChecker.path_used 1 ["std", "env", "var"]
      (Usage.unknown "a.o")) :=
  unused_subset_allowed_invariant.2.1 pathWitnessChecker 1
    ["std", "env", "var"] (Usage.unknown "a.o")
    (by unfold checkerInv; decide)

/-- C8: the `Display` rendering of a `PackageId` delegates to
`CrateSel::Primary` and appends the version in square brackets exactly when
`name_is_unique` is false (the flag `CrateIndex::new` computes as "only one
version of this name exists"); consequently a single-permission
`DisallowedApiUsage` against `foo 0.2` renders as ``​`foo[0.2]` uses API
`net`​`` with two versions in the tree and as ``​`foo` uses API `net`​``
with one. -/
theorem crate_sel_display_correct :
    (∀ p : PackageId, displayPackageId p = displayCrateSel (CrateSel.primary p)) ∧
    (∀ p : PackageId, p.name_is_unique = false →
      displayCrateSel (CrateSel.primary p) =
        p.name ++ "[" ++ p.version ++ "]") ∧
    (∀ p : PackageId, p.name_is_unique = true →
      displayCrateSel (CrateSel.primary p) = p.name) ∧
    displayProblem (Problem.disallowedApiUsage
      { crate_sel := CrateSel.primary
          { name := "foo", version := "0.2", name_is_unique := false }
        usages := [("net",
          [{ source_location := { filename := "lib.rs", line_number := 3 }
             frm := "crab1::run", toSym := "std::net::TcpStream" }])] }) =
      "`foo[0.2]` uses API `net`" ∧
    displayProblem (Problem.disallowedApiUsage
      { crate_sel := CrateSel.primary
          { name := "foo", version := "0.2", name_is_unique := true }
        usages := [("net",
          [{ source_location := { filename := "lib.rs", line_number := 3 }
             frm := "crab1::run", toSym := "std::net::TcpStream" }])] }) =
      "`foo` uses API `net`" := by
  refine ⟨fun p => rfl, ?_, ?_, by decide, by decide⟩
  · intro p h
    unfold displayCrateSel
    simp only [CrateSel.pkg_id, h, Bool.false_eq_true, not_false_eq_true,
      if_true, String.append_empty, String.append_assoc]
  · intro p h
    unfold displayCrateSel
    simp only [CrateSel.pkg_id, h, not_true, if_false, String.append_empty]

/-- C8 (witness): the rendering formulas applied at the two-version and
single-version `foo 0.2` package ids. -/
theorem crate_sel_display_correct_witness :
    displayCrateSel (CrateSel.primary
        { name := "foo", version := "0.2", name_is_unique := false }) =
      "foo" ++ "[" ++ "0.2" ++ "]" ∧
    displayCrateSel (CrateSel.primary
        { name := "foo", version := "0.2", name_is_unique := true }) = "foo" :=
  ⟨crate_sel_display_correct.2.1
      { name := "foo", version := "0.2", name_is_unique := false } rfl,
   crate_sel_display_correct.2.2.1
      { name := "foo", version := "0.2", name_is_unique := true } rfl⟩

section Grouping

variable (gf : ApiUsages → String)

lemma dauKey_eq_some {p : Problem} {k : String}
    (h : dauKey gf p = some k) :
    ∃ u, p = Problem.disallowedApiUsage u ∧ gf u = k := by
  cases p with
  | disallowedApiUsage u => exact ⟨u, rfl, Option.some.inj h⟩
  | _ => exact Option.noConfusion h

lemma dauKey_merge
    (hgf : ∀ (e : ApiUsages) (us : List (String × List ApiUsage)),
      gf { e with usages := us } = gf e)
    (u : ApiUsages) (p : Problem) :
    dauKey gf (mergeProblemInto u p) = dauKey gf p := by
  cases p with
  | disallowedApiUsage e =>
    show some (gf { e with usages := mergeUsages e.usages u.usages }) =
      some (gf e)
    rw [hgf]
  | _ => rfl

lemma absorb_key
    (hgf : ∀ (e : ApiUsages) (us : List (String × List ApiUsage)),
      gf { e with usages := us } = gf e)
    (vs : List ApiUsages) :
    ∀ e : ApiUsages, gf (absorb e vs) = gf e := by
  induction vs with
  | nil => intro e; rfl
  | cons v t ih =>
    intro e
    show gf (absorb { e with usages := mergeUsages e.usages v.usages } t) = gf e
    rw [ih, hgf]

lemma specGrouped_nil : specGrouped gf [] = [] := by
  rw [specGrouped]

lemma specGrouped_cons_dau (u : ApiUsages) (rest : List Problem) :
    specGrouped gf (Problem.disallowedApiUsage u :: rest) =
      Problem.disallowedApiUsage (absorb u (sameKeyDAUs gf (gf u) rest)) ::
        specGrouped gf
          (rest.filter (fun p => !(dauKey gf p == some (gf u)))) := by
  rw [specGrouped]

lemma specGrouped_cons_other {p : Problem} (h : dauKey gf p = none)
    (rest : List Problem) :
    specGrouped gf (p :: rest) = p :: specGrouped gf rest := by
  cases p with
  | disallowedApiUsage u => exact Option.noConfusion h
  | _ =>
    rw [specGrouped]
    intro u hu
    exact Problem.noConfusion hu

lemma sameKeyDAUs_cons_dau_eq {v : ApiUsages} {k : String} (h : gf v = k)
    (rest : List Problem) :
    sameKeyDAUs gf k (Problem.disallowedApiUsage v :: rest) =
      v :: sameKeyDAUs gf k rest := by
  unfold sameKeyDAUs
  rw [List.filterMap_cons]
  simp [h]

lemma sameKeyDAUs_cons_dau_ne {v : ApiUsages} {k : String} (h : ¬gf v = k)
    (rest : List Problem) :
    sameKeyDAUs gf k (Problem.disallowedApiUsage v :: rest) =
      sameKeyDAUs gf k rest := by
  unfold sameKeyDAUs
  rw [List.filterMap_cons]
  simp [h]

lemma sameKeyDAUs_cons_other {p : Problem} (h : dauKey gf p = none)
    (k : String) (rest : List Problem) :
    sameKeyDAUs gf k (p :: rest) = sameKeyDAUs gf k rest := by
  cases p with
  | disallowedApiUsage u => exact Option.noConfusion h
  | _ =>
    unfold sameKeyDAUs
    rw [List.filterMap_cons]

lemma dauKeys_append (a b : List Problem) :
    dauKeys gf (a ++ b) = dauKeys gf a ++ dauKeys gf b :=
  List.filterMap_append a b (dauKey gf)

lemma dauKeys_cons_some {p : Problem} {k : String} (h : dauKey gf p = some k)
    (rest : List Problem) :
    dauKeys gf (p :: rest) = k :: dauKeys gf rest := by
  unfold dauKeys
  rw [List.filterMap_cons, h]

lemma dauKeys_cons_none {p : Problem} (h : dauKey gf p = none)
    (rest : List Problem) :
    dauKeys gf (p :: rest) = dauKeys gf rest := by
  unfold dauKeys
  rw [List.filterMap_cons, h]

lemma findDAUIdx_none {k : String} :
    ∀ {acc : List Problem}, findDAUIdx gf k acc = none →
      k ∉ dauKeys gf acc := by
  intro acc
  induction acc with
  | nil =>
    intro _ hmem
    cases hmem
  | cons q t ih =>
    intro h hmem
    unfold findDAUIdx at h
    by_cases hq : dauKey gf q == some k
    · rw [if_pos hq] at h
      exact Option.noConfusion h
    · rw [if_neg hq] at h
      have ht : findDAUIdx gf k t = none := by
        cases hrec : findDAUIdx gf k t with
        | none => rfl
        | some i => rw [hrec] at h; exact Option.noConfusion h
      cases hk : dauKey gf q with
      | none => exact ih ht (by rwa [dauKeys_cons_none gf hk] at hmem)
      | some k' =>
        rw [dauKeys_cons_some gf hk] at hmem
        rcases List.mem_cons.mp hmem with rfl | hmem'
        · rw [hk] at hq
          exact hq (by simp)
        · exact ih ht hmem'

lemma beq_some_eq {o : Option String} {k : String}
    (h : (o == some k) = true) : o = some k := by
  cases o with
  | none => simp at h
  | some m =>
    have hm : m = k := by simpa using h
    rw [hm]

lemma findDAUIdx_some_mem {k : String} :
    ∀ {acc : List Problem} {i : Nat}, findDAUIdx gf k acc = some i →
      k ∈ dauKeys gf acc := by
  intro acc
  induction acc with
  | nil => intro i h; exact Option.noConfusion h
  | cons q t ih =>
    intro i h
    unfold findDAUIdx at h
    by_cases hq : dauKey gf q == some k
    · rw [dauKeys_cons_some gf (beq_some_eq hq)]
      exact List.mem_cons_self _ _
    · rw [if_neg hq] at h
      cases hrec : findDAUIdx gf k t with
      | none => rw [hrec] at h; exact Option.noConfusion h
      | some i' =>
        have hmem := ih hrec
        cases hk : dauKey gf q with
        | none => rw [dauKeys_cons_none gf hk]; exact hmem
        | some k' =>
          rw [dauKeys_cons_some gf hk]
          exact List.mem_cons_of_mem _ hmem

lemma mem_dauKeys_of_mem {e : ApiUsages} {acc : List Problem}
    (h : Problem.disallowedApiUsage e ∈ acc) : gf e ∈ dauKeys gf acc :=
  List.mem_filterMap.mpr ⟨Problem.disallowedApiUsage e, h, rfl⟩

lemma absorbAll_nil (acc : List Problem) : absorbAll gf acc [] = acc := by
  induction acc with
  | nil => rfl
  | cons q t ih =>
    unfold absorbAll
    rw [List.map_cons]
    unfold absorbAll at ih
    rw [ih]
    congr 1
    cases q <;> rfl

lemma absorbAll_append_dau (acc : List Problem) (u : ApiUsages)
    (l : List Problem) :
    absorbAll gf (acc ++ [Problem.disallowedApiUsage u]) l =
      absorbAll gf acc l ++
        [Problem.disallowedApiUsage (absorb u (sameKeyDAUs gf (gf u) l))] := by
  unfold absorbAll
  rw [List.map_append]
  rfl

lemma absorbAll_append_other (acc : List Problem) {p : Problem}
    (h : dauKey gf p = none) (l : List Problem) :
    absorbAll gf (acc ++ [p]) l = absorbAll gf acc l ++ [p] := by
  unfold absorbAll
  rw [List.map_append]
  congr 1
  cases p with
  | disallowedApiUsage u => exact Option.noConfusion h
  | _ => rfl

lemma absorbAll_skip_other (acc : List Problem) {p : Problem}
    (h : dauKey gf p = none) (rest : List Problem) :
    absorbAll gf acc (p :: rest) = absorbAll gf acc rest := by
  unfold absorbAll
  refine List.map_congr_left ?_
  intro q _
  cases q with
  | disallowedApiUsage e =>
    dsimp only [absorbEntry]
    rw [sameKeyDAUs_cons_other gf h]
  | _ => rfl

lemma absorbAll_skip_dau {u : ApiUsages} {acc : List Problem}
    (hnot : gf u ∉ dauKeys gf acc) (rest : List Problem) :
    absorbAll gf acc (Problem.disallowedApiUsage u :: rest) =
      absorbAll gf acc rest := by
  unfold absorbAll
  refine List.map_congr_left ?_
  intro q hq
  cases q with
  | disallowedApiUsage e =>
    have hne : ¬gf u = gf e := by
      intro hEq
      exact hnot (hEq ▸ mem_dauKeys_of_mem gf hq)
    dsimp only [absorbEntry]
    rw [sameKeyDAUs_cons_dau_ne gf hne]
  | _ => rfl

lemma dauKeys_listModify
    (hgf : ∀ (e : ApiUsages) (us : List (String × List ApiUsage)),
      gf { e with usages := us } = gf e)
    (u : ApiUsages) :
    ∀ (acc : List Problem) (i : Nat),
      dauKeys gf (listModify acc i (mergeProblemInto u)) = dauKeys gf acc := by
  intro acc
  induction acc with
  | nil => intro i; rfl
  | cons q t ih =>
    intro i
    cases i with
    | zero =>
      show dauKeys gf (mergeProblemInto u q :: t) = dauKeys gf (q :: t)
      cases hk : dauKey gf q with
      | none =>
        rw [dauKeys_cons_none gf (by rw [dauKey_merge gf hgf, hk]),
          dauKeys_cons_none gf hk]
      | some k =>
        rw [dauKeys_cons_some gf (by rw [dauKey_merge gf hgf, hk]),
          dauKeys_cons_some gf hk]
    | succ n =>
      show dauKeys gf (q :: listModify t n (mergeProblemInto u)) =
        dauKeys gf (q :: t)
      cases hk : dauKey gf q with
      | none => rw [dauKeys_cons_none gf hk, dauKeys_cons_none gf hk, ih]
      | some k => rw [dauKeys_cons_some gf hk, dauKeys_cons_some gf hk, ih]

lemma keyNotIn_congr {acc1 acc2 : List Problem}
    (h : dauKeys gf acc1 = dauKeys gf acc2) :
    keyNotIn gf acc1 = keyNotIn gf acc2 := by
  funext p
  unfold keyNotIn
  rw [h]

lemma keyNotIn_other {p : Problem} (h : dauKey gf p = none)
    (acc : List Problem) : keyNotIn gf acc p = true := by
  unfold keyNotIn
  rw [h]

lemma keyNotIn_dau (u : ApiUsages) (acc : List Problem) :
    keyNotIn gf acc (Problem.disallowedApiUsage u) =
      decide (gf u ∉ dauKeys gf acc) := rfl

lemma keyNotIn_append_dau (acc : List Problem) (u : ApiUsages) (p : Problem) :
    keyNotIn gf (acc ++ [Problem.disallowedApiUsage u]) p =
      (keyNotIn gf acc p && !(dauKey gf p == some (gf u))) := by
  unfold keyNotIn
  cases hk : dauKey gf p with
  | none => rfl
  | some k =>
    rw [dauKeys_append]
    have hsingle : dauKeys gf [Problem.disallowedApiUsage u] = [gf u] := rfl
    rw [hsingle]
    by_cases h1 : k ∈ dauKeys gf acc <;> by_cases h2 : k = gf u <;>
      simp [h1, h2]

lemma absorbAll_cons (q : Problem) (acc l : List Problem) :
    absorbAll gf (q :: acc) l = absorbEntry gf l q :: absorbAll gf acc l := rfl

lemma absorbEntry_skip_dau {q : Problem} {u : ApiUsages}
    (h : ¬(dauKey gf q == some (gf u)) = true) (rest : List Problem) :
    absorbEntry gf (Problem.disallowedApiUsage u :: rest) q =
      absorbEntry gf rest q := by
  cases q with
  | disallowedApiUsage e =>
    have hne : ¬gf u = gf e := by
      intro hEq
      exact h (by simp [dauKey, hEq])
    dsimp only [absorbEntry]
    rw [sameKeyDAUs_cons_dau_ne gf hne]
  | _ => rfl

lemma groupedByAux_cons_dau_found {u : ApiUsages} {acc : List Problem}
    {i : Nat} (hfind : findDAUIdx gf (gf u) acc = some i)
    (rest : List Problem) :
    groupedByAux gf (Problem.disallowedApiUsage u :: rest) acc =
      groupedByAux gf rest (listModify acc i (mergeProblemInto u)) := by
  simp [groupedByAux, hfind]

lemma groupedByAux_cons_dau_new {u : ApiUsages} {acc : List Problem}
    (hfind : findDAUIdx gf (gf u) acc = none) (rest : List Problem) :
    groupedByAux gf (Problem.disallowedApiUsage u :: rest) acc =
      groupedByAux gf rest (acc ++ [Problem.disallowedApiUsage u]) := by
  simp [groupedByAux, hfind]

lemma groupedByAux_cons_other {p : Problem} (h : dauKey gf p = none)
    (acc rest : List Problem) :
    groupedByAux gf (p :: rest) acc = groupedByAux gf rest (acc ++ [p]) := by
  cases p with
  | disallowedApiUsage u => exact Option.noConfusion h
  | _ => rfl

lemma absorbAll_merge
    (hgf : ∀ (e : ApiUsages) (us : List (String × List ApiUsage)),
      gf { e with usages := us } = gf e)
    (u : ApiUsages) (rest : List Problem) :
    ∀ (acc : List Problem) (i : Nat),
      (dauKeys gf acc).Nodup →
      findDAUIdx gf (gf u) acc = some i →
      absorbAll gf acc (Problem.disallowedApiUsage u :: rest) =
        absorbAll gf (listModify acc i (mergeProblemInto u)) rest := by
  intro acc
  induction acc with
  | nil => intro i _ hfind; exact Option.noConfusion hfind
  | cons q t ih =>
    intro i hnd hfind
    unfold findDAUIdx at hfind
    by_cases hq : dauKey gf q == some (gf u)
    · rw [if_pos hq] at hfind
      have hi : i = 0 := (Option.some.inj hfind).symm
      subst hi
      obtain ⟨e, rfl, he⟩ := dauKey_eq_some gf (beq_some_eq hq)
      have hkeys : dauKeys gf (Problem.disallowedApiUsage e :: t) =
          gf e :: dauKeys gf t :=
        dauKeys_cons_some gf
          (show dauKey gf (Problem.disallowedApiUsage e) = some (gf e)
            from rfl) t
      rw [hkeys] at hnd
      have hnotin : gf u ∉ dauKeys gf t :=
        he ▸ (List.nodup_cons.mp hnd).1
      show absorbEntry gf (Problem.disallowedApiUsage u :: rest)
            (Problem.disallowedApiUsage e) ::
          absorbAll gf t (Problem.disallowedApiUsage u :: rest) =
        absorbEntry gf rest
            (mergeProblemInto u (Problem.disallowedApiUsage e)) ::
          absorbAll gf t rest
      congr 1
      · dsimp only [absorbEntry, mergeProblemInto]
        rw [sameKeyDAUs_cons_dau_eq gf he.symm rest,
          hgf e (mergeUsages e.usages u.usages)]
        rfl
      · exact absorbAll_skip_dau gf hnotin rest
    · rw [if_neg hq] at hfind
      obtain ⟨j, hrec, hi⟩ : ∃ j, findDAUIdx gf (gf u) t = some j ∧
          i = j + 1 := by
        cases hr : findDAUIdx gf (gf u) t with
        | none => rw [hr] at hfind; exact Option.noConfusion hfind
        | some j =>
          rw [hr] at hfind
          exact ⟨j, rfl, (Option.some.inj hfind).symm⟩
      subst hi
      have hnd' : (dauKeys gf t).Nodup := by
        cases hk : dauKey gf q with
        | none => rwa [dauKeys_cons_none gf hk] at hnd
        | some k =>
          rw [dauKeys_cons_some gf hk] at hnd
          exact (List.nodup_cons.mp hnd).2
      show absorbEntry gf (Problem.disallowedApiUsage u :: rest) q ::
          absorbAll gf t (Problem.disallowedApiUsage u :: rest) =
        absorbEntry gf rest q ::
          absorbAll gf (listModify t j (mergeProblemInto u)) rest
      rw [absorbEntry_skip_dau gf hq, ih j hnd' hrec]

lemma sameKeyDAUs_filter {k : String} {acc : List Problem}
    (hk : k ∉ dauKeys gf acc) :
    ∀ rest : List Problem,
      sameKeyDAUs gf k (rest.filter (keyNotIn gf acc)) =
        sameKeyDAUs gf k rest := by
  intro rest
  induction rest with
  | nil => rfl
  | cons p t ih =>
    cases hp : dauKey gf p with
    | none =>
      rw [List.filter_cons_of_pos (keyNotIn_other gf hp acc),
        sameKeyDAUs_cons_other gf hp, sameKeyDAUs_cons_other gf hp, ih]
    | some k' =>
      obtain ⟨v, rfl, hv⟩ := dauKey_eq_some gf hp
      by_cases hkk : k' = k
      · subst hkk
        have hkeep : keyNotIn gf acc (Problem.disallowedApiUsage v) = true := by
          rw [keyNotIn_dau, hv]
          exact decide_eq_true hk
        rw [List.filter_cons_of_pos hkeep,
          sameKeyDAUs_cons_dau_eq gf hv, sameKeyDAUs_cons_dau_eq gf hv, ih]
      · have hvne : ¬gf v = k := by rw [hv]; exact hkk
        by_cases hkeep : keyNotIn gf acc (Problem.disallowedApiUsage v) = true
        · rw [List.filter_cons_of_pos hkeep,
            sameKeyDAUs_cons_dau_ne gf hvne, sameKeyDAUs_cons_dau_ne gf hvne,
            ih]
        · rw [List.filter_cons_of_neg (by simpa using hkeep),
            sameKeyDAUs_cons_dau_ne gf hvne, ih]

lemma groupedByAux_spec
    (hgf : ∀ (e : ApiUsages) (us : List (String × List ApiUsage)),
      gf { e with usages := us } = gf e) :
    ∀ (l acc : List Problem), (dauKeys gf acc).Nodup →
      groupedByAux gf l acc =
        absorbAll gf acc l ++ specGrouped gf (l.filter (keyNotIn gf acc)) := by
  intro l
  induction l with
  | nil =>
    intro acc _
    show acc = absorbAll gf acc [] ++ specGrouped gf []
    rw [absorbAll_nil, specGrouped_nil, List.append_nil]
  | cons p rest ih =>
    intro acc hnd
    cases hp : dauKey gf p with
    | none =>
      rw [groupedByAux_cons_other gf hp]
      have hkeys : dauKeys gf (acc ++ [p]) = dauKeys gf acc := by
        rw [dauKeys_append, dauKeys_cons_none gf hp,
          show dauKeys gf ([] : List Problem) = [] from rfl, List.append_nil]
      rw [ih (acc ++ [p]) (by rw [hkeys]; exact hnd)]
      rw [absorbAll_append_other gf acc hp rest, keyNotIn_congr gf hkeys,
        absorbAll_skip_other gf acc hp rest,
        List.filter_cons_of_pos (keyNotIn_other gf hp acc),
        specGrouped_cons_other gf hp, List.append_assoc]
      rfl
    | some k =>
      obtain ⟨u, rfl, hu⟩ := dauKey_eq_some gf hp
      subst hu
      cases hfind : findDAUIdx gf (gf u) acc with
      | some i =>
        rw [groupedByAux_cons_dau_found gf hfind rest]
        have hkeys := dauKeys_listModify gf hgf u acc i
        rw [ih _ (by rw [hkeys]; exact hnd), keyNotIn_congr gf hkeys,
          ← absorbAll_merge gf hgf u rest acc i hnd hfind]
        have hmem := findDAUIdx_some_mem gf hfind
        have hdrop : keyNotIn gf acc (Problem.disallowedApiUsage u) = false := by
          rw [keyNotIn_dau]
          simp [hmem]
        rw [List.filter_cons_of_neg (by simp [hdrop])]
      | none =>
        rw [groupedByAux_cons_dau_new gf hfind rest]
        have hnotin := findDAUIdx_none gf hfind
        have hkeys : dauKeys gf (acc ++ [Problem.disallowedApiUsage u]) =
            dauKeys gf acc ++ [gf u] := by
          rw [dauKeys_append]
          rfl
        have hnd' : (dauKeys gf
            (acc ++ [Problem.disallowedApiUsage u])).Nodup := by
          rw [hkeys]
          simp [List.nodup_append, hnd, hnotin]
        rw [ih _ hnd', absorbAll_append_dau gf acc u rest]
        have hfilter : rest.filter
            (keyNotIn gf (acc ++ [Problem.disallowedApiUsage u])) =
              (rest.filter (keyNotIn gf acc)).filter
                (fun p => !(dauKey gf p == some (gf u))) := by
          rw [List.filter_filter]
          refine List.filter_congr ?_
          intro p _
          rw [keyNotIn_append_dau, Bool.and_comm]
        rw [hfilter, absorbAll_skip_dau gf hnotin rest]
        have hkeep : keyNotIn gf acc (Problem.disallowedApiUsage u) = true := by
          rw [keyNotIn_dau]
          exact decide_eq_true hnotin
        rw [List.filter_cons_of_pos hkeep, specGrouped_cons_dau gf,
          sameKeyDAUs_filter gf hnotin rest, List.append_assoc]
        rfl

lemma keyNotIn_nil (p : Problem) : keyNotIn gf [] p = true := by
  unfold keyNotIn
  cases dauKey gf p with
  | none => rfl
  | some k => simp [dauKeys]

lemma grouped_by_eq_spec
    (hgf : ∀ (e : ApiUsages) (us : List (String × List ApiUsage)),
      gf { e with usages := us } = gf e)
    (l : ProblemList) : grouped_by gf l = specGrouped gf l := by
  unfold grouped_by
  rw [groupedByAux_spec gf hgf l [] List.nodup_nil,
    show absorbAll gf ([] : List Problem) l = [] from rfl, List.nil_append,
    List.filter_eq_self.mpr (fun p _ => keyNotIn_nil gf p)]

lemma dauKeys_filter_subset (q : Problem → Bool) (l : List Problem) :
    ∀ k ∈ dauKeys gf (l.filter q), k ∈ dauKeys gf l := by
  intro k hk
  rcases List.mem_filterMap.mp hk with ⟨p, hpmem, hpk⟩
  exact List.mem_filterMap.mpr ⟨p, (List.mem_filter.mp hpmem).1, hpk⟩

lemma dauKeys_filter_ne {k k0 : String} {l : List Problem}
    (hk : k ∈ dauKeys gf
      (l.filter (fun p => !(dauKey gf p == some k0)))) : k ≠ k0 := by
  rcases List.mem_filterMap.mp hk with ⟨p, hpmem, hpk⟩
  have hfilt := (List.mem_filter.mp hpmem).2
  rw [hpk] at hfilt
  intro hEq
  subst hEq
  simp at hfilt

lemma sameKeyDAUs_eq_nil {k : String} :
    ∀ {l : List Problem}, k ∉ dauKeys gf l → sameKeyDAUs gf k l = [] := by
  intro l
  induction l with
  | nil => intro _; rfl
  | cons p t ih =>
    intro hk
    cases hp : dauKey gf p with
    | none =>
      rw [sameKeyDAUs_cons_other gf hp]
      exact ih (fun hm => hk (by rwa [dauKeys_cons_none gf hp]))
    | some k' =>
      obtain ⟨v, rfl, hv⟩ := dauKey_eq_some gf hp
      rw [dauKeys_cons_some gf hp] at hk
      have hne : ¬gf v = k := by
        rw [hv]
        intro hEq
        exact hk (hEq ▸ List.mem_cons_self _ _)
      rw [sameKeyDAUs_cons_dau_ne gf hne]
      exact ih (fun hm => hk (List.mem_cons_of_mem _ hm))

lemma dauKeys_specGrouped_subset
    (hgf : ∀ (e : ApiUsages) (us : List (String × List ApiUsage)),
      gf { e with usages := us } = gf e) :
    ∀ (n : Nat) (l : List Problem), l.length ≤ n →
      ∀ k ∈ dauKeys gf (specGrouped gf l), k ∈ dauKeys gf l := by
  intro n
  induction n with
  | zero =>
    intro l hl
    rw [List.length_eq_zero.mp (Nat.le_zero.mp hl), specGrouped_nil]
    intro k hk
    exact hk
  | succ n ih =>
    intro l hl k hk
    cases l with
    | nil => rwa [specGrouped_nil] at hk
    | cons p rest =>
      cases hp : dauKey gf p with
      | none =>
        rw [specGrouped_cons_other gf hp] at hk
        rw [dauKeys_cons_none gf hp] at hk ⊢
        exact ih rest (Nat.le_of_succ_le_succ hl) k hk
      | some k0 =>
        obtain ⟨u, rfl, hu⟩ := dauKey_eq_some gf hp
        subst hu
        rw [specGrouped_cons_dau gf] at hk
        have habsk : dauKey gf (Problem.disallowedApiUsage
            (absorb u (sameKeyDAUs gf (gf u) rest))) = some (gf u) := by
          show some (gf (absorb u (sameKeyDAUs gf (gf u) rest))) = some (gf u)
          rw [absorb_key gf hgf]
        rw [dauKeys_cons_some gf habsk] at hk
        rw [dauKeys_cons_some gf hp]
        rcases List.mem_cons.mp hk with rfl | hk'
        · exact List.mem_cons_self _ _
        · have hlen : (rest.filter
              (fun p => !(dauKey gf p == some (gf u)))).length ≤ n :=
            le_trans (List.length_filter_le _ _) (Nat.le_of_succ_le_succ hl)
          have hmem := ih _ hlen k hk'
          exact List.mem_cons_of_mem _
            (dauKeys_filter_subset gf _ rest k hmem)

lemma dauKeys_specGrouped_nodup
    (hgf : ∀ (e : ApiUsages) (us : List (String × List ApiUsage)),
      gf { e with usages := us } = gf e) :
    ∀ (n : Nat) (l : List Problem), l.length ≤ n →
      (dauKeys gf (specGrouped gf l)).Nodup := by
  intro n
  induction n with
  | zero =>
    intro l hl
    rw [List.length_eq_zero.mp (Nat.le_zero.mp hl), specGrouped_nil]
    exact List.nodup_nil
  | succ n ih =>
    intro l hl
    cases l with
    | nil => rw [specGrouped_nil]; exact List.nodup_nil
    | cons p rest =>
      have hrest : rest.length ≤ n := Nat.le_of_succ_le_succ hl
      cases hp : dauKey gf p with
      | none =>
        rw [specGrouped_cons_other gf hp, dauKeys_cons_none gf hp]
        exact ih rest hrest
      | some k0 =>
        obtain ⟨u, rfl, hu⟩ := dauKey_eq_some gf hp
        subst hu
        rw [specGrouped_cons_dau gf]
        have habsk : dauKey gf (Problem.disallowedApiUsage
            (absorb u (sameKeyDAUs gf (gf u) rest))) = some (gf u) := by
          show some (gf (absorb u (sameKeyDAUs gf (gf u) rest))) = some (gf u)
          rw [absorb_key gf hgf]
        rw [dauKeys_cons_some gf habsk]
        have hlen : (rest.filter
            (fun p => !(dauKey gf p == some (gf u)))).length ≤ n :=
          le_trans (List.length_filter_le _ _) hrest
        refine List.nodup_cons.mpr ⟨?_, ih _ hlen⟩
        intro hmem
        have hmem' := dauKeys_specGrouped_subset gf hgf n _ hlen _ hmem
        exact (dauKeys_filter_ne gf hmem') rfl

lemma specGrouped_of_nodup :
    ∀ (n : Nat) (l : List Problem), l.length ≤ n →
      (dauKeys gf l).Nodup → specGrouped gf l = l := by
  intro n
  induction n with
  | zero =>
    intro l hl _
    rw [List.length_eq_zero.mp (Nat.le_zero.mp hl), specGrouped_nil]
  | succ n ih =>
    intro l hl hnd
    cases l with
    | nil => exact specGrouped_nil gf
    | cons p rest =>
      have hrest : rest.length ≤ n := Nat.le_of_succ_le_succ hl
      cases hp : dauKey gf p with
      | none =>
        rw [specGrouped_cons_other gf hp,
          ih rest hrest (by rwa [dauKeys_cons_none gf hp] at hnd)]
      | some k0 =>
        obtain ⟨u, rfl, hu⟩ := dauKey_eq_some gf hp
        subst hu
        rw [dauKeys_cons_some gf hp] at hnd
        have hnotin : gf u ∉ dauKeys gf rest := (List.nodup_cons.mp hnd).1
        rw [specGrouped_cons_dau gf, sameKeyDAUs_eq_nil gf hnotin]
        have hfilt : rest.filter
            (fun p => !(dauKey gf p == some (gf u))) = rest := by
          refine List.filter_eq_self.mpr ?_
          intro q hq
          cases hq' : dauKey gf q with
          | none => simp
          | some k' =>
            have hk' : k' ∈ dauKeys gf rest := by
              rcases dauKey_eq_some gf hq' with ⟨v, rfl, hv⟩
              exact hv ▸ mem_dauKeys_of_mem gf hq
            have : ¬k' = gf u := fun hEq => hnotin (hEq ▸ hk')
            simp [this]
        rw [hfilt, ih rest hrest (List.nodup_cons.mp hnd).2]
        rfl

end Grouping

/-- C5: `grouped_by_type_and_crate` equals the specification walk — every
`DisallowedApiUsage` whose crate selector renders to the same string is
merged into the group's first occurrence (usage lists concatenated per
permission, later occurrences removed) while all other problems keep their
relative positions — and applying it twice gives the same list as applying
it once. -/
theorem grouped_by_type_and_crate_correct :
    (∀ l : ProblemList, grouped_by_type_and_crate l = specGrouped crateKey l) ∧
    (∀ l : ProblemList,
      grouped_by_type_and_crate (grouped_by_type_and_crate l) =
        grouped_by_type_and_crate l) := by
  have hgf : ∀ (e : ApiUsages) (us : List (String × List ApiUsage)),
      crateKey { e with usages := us } = crateKey e := fun e us => rfl
  have hspec : ∀ l : ProblemList,
      grouped_by_type_and_crate l = specGrouped crateKey l :=
    fun l => grouped_by_eq_spec crateKey hgf l
  refine ⟨hspec, ?_⟩
  intro l
  have hnd : (dauKeys crateKey (grouped_by_type_and_crate l)).Nodup := by
    rw [hspec l]
    exact dauKeys_specGrouped_nodup crateKey hgf l.length l le_rfl
  rw [hspec (grouped_by_type_and_crate l)]
  exact specGrouped_of_nodup crateKey (grouped_by_type_and_crate l).length _
    le_rfl hnd

end Cackle
